import Mathlib

/-!
Shallow embedding of the backend-selection engine of the load balancer
(`src/main.rs`, `struct LoadBalancer` and its methods).

Modelling conventions:
* `u32` values (weights, failure counts) are `Nat`; where the source does
  arithmetic that can overflow (`failures + 1`, the `i32` accumulator sums)
  the wraparound is made explicit with `% 2^32` / `wrap32`.
* `i32` values (`current_weight`, the running `total`) are `Int` and every
  source-level `+=` / `-=` / `as i32` cast goes through `wrap32`.
* `Instant` is a monotonic timestamp in whole seconds, modelled as `Nat`;
  `now.duration_since(t).as_secs()` is truncated subtraction `now - t`.
* `HashMap<String, SessionInfo>` is modelled as the map
  `String → Option SessionInfo`.
* Selection methods mutate `&mut self`; they are modelled as functions
  `LoadBalancer → Option String × LoadBalancer`.
-/

namespace LBProof

/-- Two-complement wraparound of an `Int` into the `i32` range. -/
def wrap32 (x : Int) : Int := (x + 2^31) % 2^32 - 2^31

/-- The cast `w as i32` applied to a `u32` value `w`. -/
def asI32 (w : Nat) : Int := wrap32 w

/-- `enum HealthStatus` from the source. -/
inductive HealthStatus where
  | Healthy : HealthStatus
  | Unhealthy (failures : Nat) : HealthStatus
deriving DecidableEq, Repr

/-- `enum LoadBalancingStrategy` from the source. -/
inductive LoadBalancingStrategy where
  | RoundRobin : LoadBalancingStrategy
  | WeightedRoundRobin : LoadBalancingStrategy
  | StickySession : LoadBalancingStrategy
deriving DecidableEq, Repr

/-- `struct Backend` from the source. -/
structure Backend where
  url : String
  health_status : HealthStatus
  weight : Nat
  current_weight : Int
deriving DecidableEq, Repr

/-- `struct SessionInfo` from the source. -/
structure SessionInfo where
  backend_url : String
  last_seen : Nat
deriving DecidableEq, Repr

/-- `struct LoadBalancer` from the source. -/
structure LoadBalancer where
  backends : List Backend
  current_idx : Nat
  max_failures : Nat
  strategy : LoadBalancingStrategy
  sessions : String → Option SessionInfo
  session_timeout : Nat

/-- `LoadBalancer::new`. -/
def LoadBalancer.new (backend_urls : List String) (max_failures : Nat) : LoadBalancer :=
  { backends := backend_urls.map (fun url =>
      { url := url, health_status := .Healthy, weight := 1, current_weight := 0 })
    current_idx := 0
    max_failures := max_failures
    strategy := .RoundRobin
    sessions := fun _ => none
    session_timeout := 300 }

/-- `LoadBalancer::new_weighted`. -/
def LoadBalancer.new_weighted (backend_with_weights : List (String × Nat))
    (max_failures : Nat) : LoadBalancer :=
  { backends := backend_with_weights.map (fun p =>
      { url := p.1, health_status := .Healthy, weight := p.2, current_weight := 0 })
    current_idx := 0
    max_failures := max_failures
    strategy := .WeightedRoundRobin
    sessions := fun _ => none
    session_timeout := 300 }

/-- `LoadBalancer::set_strategy`. -/
def LoadBalancer.set_strategy (s : LoadBalancer) (strategy : LoadBalancingStrategy) :
    LoadBalancer :=
  { s with strategy := strategy }

/-- `self.backends.iter_mut().find(|b| b.url == url)` followed by an in-place
update: modify the first backend whose URL matches, leave the rest alone. -/
def modifyFirst (url : String) (f : Backend → Backend) : List Backend → List Backend
  | [] => []
  | b :: bs => if b.url = url then f b :: bs else b :: modifyFirst url f bs

/-- `LoadBalancer.set_weight`. -/
def LoadBalancer.set_weight (s : LoadBalancer) (backend_url : String) (weight : Nat) :
    LoadBalancer :=
  { s with backends := modifyFirst backend_url (fun b => { b with weight := weight }) s.backends }

/-- `LoadBalancer::set_session_timeout`. -/
def LoadBalancer.set_session_timeout (s : LoadBalancer) (timeout : Nat) : LoadBalancer :=
  { s with session_timeout := timeout }

/-- `LoadBalancer::clean_expired_session`: keep exactly the entries with
`now.duration_since(last_seen).as_secs() < session_timeout`. -/
def LoadBalancer.clean_expired_session (s : LoadBalancer) (now : Nat) : LoadBalancer :=
  { s with sessions := fun k =>
      match s.sessions k with
      | some session => if now - session.last_seen < s.session_timeout then some session else none
      | none => none }

/-- The `loop` of `get_next_backend_round_robin`: check the backend at `i`;
if Healthy return it and advance the cursor, else advance and keep going.
The source loop stops after it has wrapped back to `start_idx`, i.e. after
exactly `backends.len()` health checks, so the fuel is the pool size. -/
def rrLoop (bs : List Backend) : Nat → Nat → Option String × Nat
  | 0, i => (none, i)
  | fuel + 1, i =>
    match bs.get? i with
    | some b =>
      if b.health_status = .Healthy then (some b.url, (i + 1) % bs.length)
      else rrLoop bs fuel ((i + 1) % bs.length)
    | none => (none, i)

/-- `LoadBalancer::get_next_backend_round_robin`. -/
def LoadBalancer.get_next_backend_round_robin (s : LoadBalancer) :
    Option String × LoadBalancer :=
  if s.backends.isEmpty then (none, s)
  else
    let r := rrLoop s.backends s.backends.length s.current_idx
    (r.1, { s with current_idx := r.2 })

/-- State threaded through the `for (i, backend)` loop of
`get_next_backend_weighted`: running `total`, `best_idx`, `best_weight`. -/
structure WScanAcc where
  total : Int
  best_idx : Nat
  best_weight : Int
deriving DecidableEq, Repr

/-- The `for (i, backend) in self.backends.iter_mut().enumerate()` loop of
`get_next_backend_weighted`: for each Healthy backend add its weight to the
running total and to its `current_weight` (both as wrapping `i32`), and track
the first index whose updated `current_weight` strictly exceeds the best seen.
Returns the updated pool together with the final accumulator. -/
def wScan : List Backend → Nat → WScanAcc → List Backend × WScanAcc
  | [], _, acc => ([], acc)
  | b :: bs, i, acc =>
    if b.health_status = .Healthy then
      let total := wrap32 (acc.total + asI32 b.weight)
      let cw := wrap32 (b.current_weight + asI32 b.weight)
      let acc' :=
        if cw > acc.best_weight then
          { total := total, best_idx := i, best_weight := cw }
        else
          { acc with total := total }
      let r := wScan bs (i + 1) acc'
      ({ b with current_weight := cw } :: r.1, r.2)
    else
      let r := wScan bs (i + 1) acc
      (b :: r.1, r.2)

/-- In-place update of the element at position `j` (the write
`self.backends[best_idx].current_weight -= total`). -/
def modifyIdx (f : Backend → Backend) : List Backend → Nat → List Backend
  | [], _ => []
  | b :: bs, 0 => f b :: bs
  | b :: bs, j + 1 => b :: modifyIdx f bs j

/-- The whole body of `get_next_backend_weighted` as a function of the pool
(the method reads and mutates only `self.backends`): the early no-Healthy
return, the adding/best-tracking loop, the `best_weight < 0` guard, and the
subtraction of the total from the winner. -/
def weightedPick (bs : List Backend) : Option String × List Backend :=
  if bs.any (fun b => b.health_status = .Healthy) then
    let r := wScan bs 0 { total := 0, best_idx := 0, best_weight := -1 }
    if r.2.best_weight < 0 then (none, r.1)
    else
      let bs' := modifyIdx
        (fun b => { b with current_weight := wrap32 (b.current_weight - r.2.total) })
        r.1 r.2.best_idx
      ((r.1.get? r.2.best_idx).map (fun b => b.url), bs')
  else (none, bs)

/-- `LoadBalancer::get_next_backend_weighted`. -/
def LoadBalancer.get_next_backend_weighted (s : LoadBalancer) :
    Option String × LoadBalancer :=
  ((weightedPick s.backends).1, { s with backends := (weightedPick s.backends).2 })

/-- The fall-through tail of `get_backend_for_client` (the `match self.strategy`
dispatch plus the insertion of the new session entry). -/
def LoadBalancer.stickyFallback (s : LoadBalancer) (client_ip : String) (now : Nat) :
    Option String × LoadBalancer :=
  let r :=
    match s.strategy with
    | .StickySession => s.get_next_backend_weighted
    | .WeightedRoundRobin => s.get_next_backend_weighted
    | .RoundRobin => s.get_next_backend_round_robin
  match r.1 with
  | some url =>
    (some url, { r.2 with sessions := fun k =>
      if k = client_ip then some { backend_url := url, last_seen := now } else r.2.sessions k })
  | none => (none, r.2)

/-- `LoadBalancer::get_backend_for_client`. -/
def LoadBalancer.get_backend_for_client (s : LoadBalancer) (client_ip : String) (now : Nat) :
    Option String × LoadBalancer :=
  let s1 := s.clean_expired_session now
  match s1.sessions client_ip with
  | some session =>
    match s1.backends.find? (fun b => b.url = session.backend_url) with
    | some b =>
      if b.health_status = .Healthy then
        (some session.backend_url,
         { s1 with sessions := fun k =>
             if k = client_ip then some { backend_url := session.backend_url, last_seen := now }
             else s1.sessions k })
      else
        let s2 := { s1 with sessions := fun k =>
          if k = client_ip then none else s1.sessions k }
        s2.stickyFallback client_ip now
    | none =>
      let s2 := { s1 with sessions := fun k =>
        if k = client_ip then none else s1.sessions k }
      s2.stickyFallback client_ip now
  | none => s1.stickyFallback client_ip now

/-- `LoadBalancer::get_next_backend`. -/
def LoadBalancer.get_next_backend (s : LoadBalancer) (client_ip : Option String) (now : Nat) :
    Option String × LoadBalancer :=
  match s.strategy with
  | .RoundRobin => s.get_next_backend_round_robin
  | .WeightedRoundRobin => s.get_next_backend_weighted
  | .StickySession =>
    match client_ip with
    | some ip => s.get_backend_for_client ip now
    | none => s.get_next_backend_weighted

/-- `LoadBalancer::mark_unhealthy`.  `failures` is a `u32`, so `failures + 1`
wraps modulo `2^32`. -/
def LoadBalancer.mark_unhealthy (s : LoadBalancer) (backend_url : String) : LoadBalancer :=
  let f : Backend → Backend := fun b =>
    match b.health_status with
    | .Healthy => { b with health_status := .Unhealthy 1 }
    | .Unhealthy failures => { b with health_status := .Unhealthy ((failures + 1) % 2^32) }
  { s with backends := modifyFirst backend_url f s.backends }

/-- `LoadBalancer::mark_healthy`. -/
def LoadBalancer.mark_healthy (s : LoadBalancer) (backend_url : String) : LoadBalancer :=
  let f : Backend → Backend := fun b =>
    match b.health_status with
    | .Healthy => b
    | .Unhealthy _ => { b with health_status := .Healthy }
  { s with backends := modifyFirst backend_url f s.backends }

/-- `LoadBalancer::get_all_backends`. -/
def LoadBalancer.get_all_backends (s : LoadBalancer) : List String :=
  s.backends.map (fun b => b.url)

/-! Derived iteration / observation functions used to state the claims. -/

/-- The URL returned by one weighted selection. -/
def pickW (s : LoadBalancer) : Option String := (s.get_next_backend_weighted).1

/-- The state after one weighted selection. -/
def stepW (s : LoadBalancer) : LoadBalancer := (s.get_next_backend_weighted).2

/-- The state after `k` consecutive weighted selections. -/
def iterW (s : LoadBalancer) : Nat → LoadBalancer
  | 0 => s
  | k + 1 => iterW (stepW s) k

/-- The results of `k` consecutive weighted selections. -/
def selListW (s : LoadBalancer) : Nat → List (Option String)
  | 0 => []
  | k + 1 => pickW s :: selListW (stepW s) k

/-- The URL returned by one round-robin selection. -/
def pickR (s : LoadBalancer) : Option String := (s.get_next_backend_round_robin).1

/-- The state after one round-robin selection. -/
def stepR (s : LoadBalancer) : LoadBalancer := (s.get_next_backend_round_robin).2

/-- The results of `k` consecutive round-robin selections. -/
def selListR (s : LoadBalancer) : Nat → List (Option String)
  | 0 => []
  | k + 1 => pickR s :: selListR (stepR s) k

/-- `N` consecutive calls to `mark_unhealthy(u)`. -/
def iterMarkUnhealthy (s : LoadBalancer) (u : String) : Nat → LoadBalancer
  | 0 => s
  | k + 1 => (iterMarkUnhealthy s u k).mark_unhealthy u

/-- Sum of the static weights of a pool. -/
def weightSum (bs : List Backend) : Nat := (bs.map (fun b => b.weight)).sum

/-- The `current_weight` accumulators of a pool. -/
def cwList (bs : List Backend) : List Int := bs.map (fun b => b.current_weight)

/-- Proof-side description of the adding pass of the weighted loop on an
all-Healthy pool, without `i32` wraparound. -/
def addAll (bs : List Backend) : List Backend :=
  bs.map (fun b => { b with current_weight := b.current_weight + (b.weight : Int) })

/-- The post-add accumulator values of an all-Healthy pool, without wraparound. -/
def postVals (bs : List Backend) : List Int :=
  bs.map (fun b => b.current_weight + (b.weight : Int))

/-- Proof-side description of one whole weighted selection on an all-Healthy
pool, without wraparound: add every weight, then subtract the weight total
from position `j`. -/
def stepIdeal (bs : List Backend) (j : Nat) : List Backend :=
  modifyIdx (fun b => { b with current_weight := b.current_weight - (weightSum bs : Int) })
    (addAll bs) j

/-- The pure best-index fold performed by the weighted loop: starting from
`p = (best_idx, best_weight)`, take each value in turn (positions starting at
`i`) and move to it exactly when it strictly exceeds the best seen. -/
def pickFold : List Int → Nat → Nat × Int → Nat × Int
  | [], _, p => p
  | v :: vs, i, p => pickFold vs (i + 1) (if v > p.2 then (i, v) else p)

/-- Sum of the static weights of the Healthy backends, as an integer (what the
`total` accumulator of the weighted loop computes, up to `i32` wraparound). -/
def healthyWeightSum (bs : List Backend) : Int :=
  ((bs.filter (fun b => b.health_status = .Healthy)).map (fun b => (b.weight : Int))).sum

/-- A one-backend pool whose weight `2^31` overflows the `i32` accumulators. -/
def lbBig : LoadBalancer := LoadBalancer.new_weighted [("A", 2 ^ 31)] 3

/-- The state of `lbBig` after one weighted selection. -/
def sBig1 : LoadBalancer := stepW lbBig

/-- A small two-backend weighted pool (weights 2 and 1). -/
def lb3w : LoadBalancer := LoadBalancer.new_weighted [("A", 2), ("B", 1)] 3

end LBProof

namespace LBProof

theorem LoadBalancer.eq_of_fields {s t : LoadBalancer}
    (h1 : s.backends = t.backends) (h2 : s.current_idx = t.current_idx)
    (h3 : s.max_failures = t.max_failures) (h4 : s.strategy = t.strategy)
    (h5 : s.sessions = t.sessions) (h6 : s.session_timeout = t.session_timeout) :
    s = t := by
  cases s; cases t; simp_all

/-- C9: `set_strategy` replaces only the current policy: the backend list
(hence every url, weight, current_weight and health), the round-robin cursor,
the whole session table, the session timeout and `max_failures` are identical
before and after the call, for every starting state and target policy; in
particular the session table survives switching away and back. -/
theorem claim9_set_strategy_frame (s : LoadBalancer) (p : LoadBalancingStrategy) :
    (s.set_strategy p).strategy = p ∧
    (s.set_strategy p).backends = s.backends ∧
    (s.set_strategy p).current_idx = s.current_idx ∧
    (s.set_strategy p).sessions = s.sessions ∧
    (s.set_strategy p).session_timeout = s.session_timeout ∧
    (s.set_strategy p).max_failures = s.max_failures ∧
    ∀ q : LoadBalancingStrategy, ((s.set_strategy p).set_strategy q).sessions = s.sessions :=
  ⟨rfl, rfl, rfl, rfl, rfl, rfl, fun _ => rfl⟩

/-- C1 counterexample: on the pool `[A:5, B:3, C:2]`, all Healthy, all
accumulators zero, the ten weighted selections are NOT the sequence
`A,A,B,A,C,A,B,A,B,C` stated by the claim (already the second selection is
`B`, not `A`). -/
theorem claim1_counterexample :
    selListW (LoadBalancer.new_weighted [("A", 5), ("B", 3), ("C", 2)] 3) 10 ≠
      [some "A", some "A", some "B", some "A", some "C",
       some "A", some "B", some "A", some "B", some "C"] := by
  decide

/-- C1 (amended): on the pool `[A:5, B:3, C:2]`, all Healthy, all accumulators
zero, ten consecutive weighted selections return exactly
`A,B,C,A,A,B,A,C,B,A` — in particular a multiset of five `A`, three `B`,
two `C`, as the claim also states. -/
theorem claim1_weighted_sequence :
    selListW (LoadBalancer.new_weighted [("A", 5), ("B", 3), ("C", 2)] 3) 10 =
      [some "A", some "B", some "C", some "A", some "A",
       some "B", some "A", some "C", some "B", some "A"] ∧
    (selListW (LoadBalancer.new_weighted [("A", 5), ("B", 3), ("C", 2)] 3) 10).count
      (some "A") = 5 ∧
    (selListW (LoadBalancer.new_weighted [("A", 5), ("B", 3), ("C", 2)] 3) 10).count
      (some "B") = 3 ∧
    (selListW (LoadBalancer.new_weighted [("A", 5), ("B", 3), ("C", 2)] 3) 10).count
      (some "C") = 2 := by
  refine ⟨by decide, by decide, by decide, by decide⟩

/-- C2 counterexample: a freshly constructed pool whose only backend has
weight 0 (and is Healthy): the weighted selection returns that backend's URL,
so a weight-0 backend IS returned by the weighted policy. -/
theorem claim2_counterexample :
    ((LoadBalancer.new_weighted [("http://localhost:9001", 0)] 3).backends.map
        (fun b => (b.url, b.weight, b.health_status))
      = [("http://localhost:9001", 0, HealthStatus.Healthy)]) ∧
    pickW (LoadBalancer.new_weighted [("http://localhost:9001", 0)] 3)
      = some "http://localhost:9001" := by
  refine ⟨by decide, by decide⟩

/-- C10 counterexample: a reachable state whose `current_weight` accumulators
do not sum to 0.  From the fresh pool `[A:1, B:1, C:1]` one weighted selection
(sum still 0), then `mark_unhealthy(B)`, `mark_unhealthy(C)`; the next
weighted selection adds A's weight into its accumulator (post-add value `-1`,
which is not `> -1`) and returns None without subtracting anything, even
though A is Healthy — leaving the accumulators summing to 1. -/
theorem claim10_counterexample :
    pickW (((stepW (LoadBalancer.new_weighted [("A", 1), ("B", 1), ("C", 1)] 3)).mark_unhealthy
        "B").mark_unhealthy "C") = none ∧
    ((((stepW (LoadBalancer.new_weighted [("A", 1), ("B", 1), ("C", 1)] 3)).mark_unhealthy
        "B").mark_unhealthy "C").backends.any
        (fun b => b.health_status = .Healthy)) = true ∧
    (cwList (stepW (((stepW (LoadBalancer.new_weighted [("A", 1), ("B", 1), ("C", 1)]
        3)).mark_unhealthy "B").mark_unhealthy "C")).backends).sum = 1 := by
  refine ⟨by decide, by decide, by decide⟩

theorem modifyFirst_not_found {u : String} {f : Backend → Backend} :
    ∀ {bs : List Backend}, (∀ b ∈ bs, b.url ≠ u) → modifyFirst u f bs = bs
  | [], _ => rfl
  | b :: bs, h => by
    have hb : b.url ≠ u := h b (List.mem_cons_self b bs)
    simp only [modifyFirst, if_neg hb]
    exact congrArg (b :: ·) (modifyFirst_not_found fun c hc => h c (List.mem_cons_of_mem b hc))

theorem modifyFirst_get?_eq {u : String} {f : Backend → Backend} :
    ∀ {bs : List Backend} {i : Nat} {b : Backend},
      bs.get? i = some b → b.url = u →
      (∀ j c, j < i → bs.get? j = some c → c.url ≠ u) →
      (modifyFirst u f bs).get? i = some (f b) ∧
        ∀ j, j ≠ i → (modifyFirst u f bs).get? j = bs.get? j := by
  intro bs
  induction bs with
  | nil => intro i b hb; simp at hb
  | cons hd tl ih =>
    intro i b hb hu hmin
    by_cases hhd : hd.url = u
    · have hi0 : i = 0 := by
        by_contra h0
        exact hmin 0 hd (Nat.pos_of_ne_zero h0) rfl hhd
      subst hi0
      have hbhd : hd = b := by simpa using hb
      subst hbhd
      refine ⟨by simp [modifyFirst, if_pos hhd], ?_⟩
      intro j hj
      obtain ⟨j', rfl⟩ : ∃ j', j = j' + 1 := ⟨j - 1, by omega⟩
      simp [modifyFirst, if_pos hhd]
    · have hi : i ≠ 0 := by
        intro h0
        subst h0
        have hbhd : hd = b := by simpa using hb
        exact hhd (hbhd ▸ hu)
      obtain ⟨i', rfl⟩ : ∃ i', i = i' + 1 := ⟨i - 1, by omega⟩
      have hb' : tl.get? i' = some b := by simpa using hb
      have hmin' : ∀ j c, j < i' → tl.get? j = some c → c.url ≠ u := by
        intro j c hj hc
        exact hmin (j + 1) c (by omega) (by simpa using hc)
      obtain ⟨h1, h2⟩ := ih hb' hu hmin'
      refine ⟨by simpa [modifyFirst, if_neg hhd] using h1, ?_⟩
      intro j hj
      match j with
      | 0 => simp [modifyFirst, if_neg hhd]
      | j' + 1 =>
        have : j' ≠ i' := by omega
        simpa [modifyFirst, if_neg hhd] using h2 j' this

theorem mark_unhealthy_not_found {s : LoadBalancer} {u : String}
    (h : ∀ b ∈ s.backends, b.url ≠ u) : s.mark_unhealthy u = s :=
  LoadBalancer.eq_of_fields (modifyFirst_not_found h) rfl rfl rfl rfl rfl

theorem iterMarkUnhealthy_spec (s : LoadBalancer) (u : String) {i : Nat} {b : Backend}
    (hb : s.backends.get? i = some b) (hu : b.url = u) (hh : b.health_status = .Healthy)
    (hmin : ∀ j c, j < i → s.backends.get? j = some c → c.url ≠ u) :
    ∀ N, 1 ≤ N →
      (iterMarkUnhealthy s u N).backends.get? i =
        some { b with health_status := .Unhealthy (N % 2^32) } ∧
      (∀ j, j ≠ i → (iterMarkUnhealthy s u N).backends.get? j = s.backends.get? j) := by
  intro N hN
  induction N, hN using Nat.le_induction with
  | base =>
    have h := modifyFirst_get?_eq
      (f := fun b =>
        match b.health_status with
        | .Healthy => { b with health_status := .Unhealthy 1 }
        | .Unhealthy failures => { b with health_status := .Unhealthy ((failures + 1) % 2^32) })
      hb hu hmin
    have h1 : 1 % 2^32 = 1 := by norm_num
    constructor
    · show (s.mark_unhealthy u).backends.get? i = _
      rw [LoadBalancer.mark_unhealthy]
      rw [h1]
      simpa [hh] using h.1
    · intro j hj
      show (s.mark_unhealthy u).backends.get? j = _
      rw [LoadBalancer.mark_unhealthy]
      exact h.2 j hj
  | succ N hN ih =>
    set t := iterMarkUnhealthy s u N with ht
    have hti : t.backends.get? i = some { b with health_status := .Unhealthy (N % 2^32) } :=
      ih.1
    have htmin : ∀ j c, j < i → t.backends.get? j = some c → c.url ≠ u := by
      intro j c hj hc
      have := ih.2 j (by omega)
      rw [this] at hc
      exact hmin j c hj hc
    have h := modifyFirst_get?_eq
      (f := fun b =>
        match b.health_status with
        | .Healthy => { b with health_status := .Unhealthy 1 }
        | .Unhealthy failures => { b with health_status := .Unhealthy ((failures + 1) % 2^32) })
      hti hu htmin
    have harith : (N % 2^32 + 1) % 2^32 = (N + 1) % 2^32 := by
      conv_rhs => rw [Nat.add_mod]
      norm_num
    constructor
    · show (t.mark_unhealthy u).backends.get? i = _
      rw [LoadBalancer.mark_unhealthy]
      rw [← harith]
      simpa using h.1
    · intro j hj
      show (t.mark_unhealthy u).backends.get? j = _
      rw [LoadBalancer.mark_unhealthy]
      rw [h.2 j hj]
      exact ih.2 j hj

/-- C7 (amended): `mark_unhealthy(u)` transitions the first pool entry whose
URL is `u` from `Healthy` to `Unhealthy(1)` and from `Unhealthy(n)` to
`Unhealthy((n+1) mod 2^32)` (the failure counter is a `u32` and wraps),
leaving every other backend and every other state component unchanged, so `N`
consecutive calls starting from `Healthy` leave the backend in
`Unhealthy(N mod 2^32)` — which is `Unhealthy(N)` for every `N < 2^32`;
`mark_unhealthy` on a URL not present in the pool leaves the state
unchanged. -/
theorem claim7_mark_unhealthy (s : LoadBalancer) (u : String) :
    ((∀ b ∈ s.backends, b.url ≠ u) → s.mark_unhealthy u = s) ∧
    ((s.mark_unhealthy u).current_idx = s.current_idx ∧
     (s.mark_unhealthy u).strategy = s.strategy ∧
     (s.mark_unhealthy u).sessions = s.sessions ∧
     (s.mark_unhealthy u).session_timeout = s.session_timeout ∧
     (s.mark_unhealthy u).max_failures = s.max_failures) ∧
    (∀ i b, s.backends.get? i = some b → b.url = u →
      (∀ j c, j < i → s.backends.get? j = some c → c.url ≠ u) →
      ((b.health_status = .Healthy →
          (s.mark_unhealthy u).backends.get? i =
            some { b with health_status := .Unhealthy 1 }) ∧
       (∀ n, b.health_status = .Unhealthy n →
          (s.mark_unhealthy u).backends.get? i =
            some { b with health_status := .Unhealthy ((n + 1) % 2^32) }) ∧
       (∀ j, j ≠ i → (s.mark_unhealthy u).backends.get? j = s.backends.get? j))) ∧
    (∀ N i b, 1 ≤ N → s.backends.get? i = some b → b.url = u →
      b.health_status = .Healthy →
      (∀ j c, j < i → s.backends.get? j = some c → c.url ≠ u) →
      (iterMarkUnhealthy s u N).backends.get? i =
        some { b with health_status := .Unhealthy (N % 2^32) }) := by
  refine ⟨mark_unhealthy_not_found, ⟨rfl, rfl, rfl, rfl, rfl⟩, ?_, ?_⟩
  · intro i b hb hu hmin
    have h := modifyFirst_get?_eq
      (f := fun b =>
        match b.health_status with
        | .Healthy => { b with health_status := .Unhealthy 1 }
        | .Unhealthy failures => { b with health_status := .Unhealthy ((failures + 1) % 2^32) })
      hb hu hmin
    refine ⟨?_, ?_, ?_⟩
    · intro hh
      show (s.mark_unhealthy u).backends.get? i = _
      rw [LoadBalancer.mark_unhealthy]
      simpa [hh] using h.1
    · intro n hn
      show (s.mark_unhealthy u).backends.get? i = _
      rw [LoadBalancer.mark_unhealthy]
      simpa [hn] using h.1
    · intro j hj
      show (s.mark_unhealthy u).backends.get? j = _
      rw [LoadBalancer.mark_unhealthy]
      exact h.2 j hj
  · intro N i b hN hb hu hh hmin
    exact (iterMarkUnhealthy_spec s u hb hu hh hmin N hN).1

/-- C7 counterexample: with a single Healthy backend `A`, `2^32` consecutive
calls to `mark_unhealthy("A")` leave it in `Unhealthy(0)` (the `u32` failure
counter wraps around), not in `Unhealthy(2^32)` as the claim (for every `N`)
requires. -/
theorem claim7_counterexample :
    (iterMarkUnhealthy (LoadBalancer.new ["A"] 3) "A" (2^32)).backends.get? 0 =
      some { url := "A", health_status := .Unhealthy 0, weight := 1, current_weight := 0 } ∧
    (HealthStatus.Unhealthy 0 ≠ HealthStatus.Unhealthy (2^32)) := by
  constructor
  · have h := iterMarkUnhealthy_spec (LoadBalancer.new ["A"] 3) "A"
      (i := 0) (b := { url := "A", health_status := .Healthy, weight := 1, current_weight := 0 })
      (by decide) rfl rfl (fun j c hj _ => absurd hj (by omega)) (2^32) (by norm_num)
    have hmod : (2^32) % 2^32 = 0 := Nat.mod_self _
    rw [hmod] at h
    exact h.1
  · decide

theorem claim7_witness :
    ((LoadBalancer.new ["A", "B"] 3).mark_unhealthy "B").backends.get? 1 =
      some { url := "B", health_status := .Unhealthy 1, weight := 1, current_weight := 0 } ∧
    ((LoadBalancer.new ["A", "B"] 3).mark_unhealthy "B").backends.get? 0 =
      (LoadBalancer.new ["A", "B"] 3).backends.get? 0 ∧
    (LoadBalancer.new ["A", "B"] 3).mark_unhealthy "C" = LoadBalancer.new ["A", "B"] 3 ∧
    (iterMarkUnhealthy (LoadBalancer.new ["A", "B"] 3) "B" 3).backends.get? 1 =
      some { url := "B", health_status := .Unhealthy 3, weight := 1, current_weight := 0 } := by
  have h := claim7_mark_unhealthy (LoadBalancer.new ["A", "B"] 3) "B"
  have hB : (LoadBalancer.new ["A", "B"] 3).backends.get? 1 =
      some { url := "B", health_status := .Healthy, weight := 1, current_weight := 0 } := by
    decide
  have hA : (LoadBalancer.new ["A", "B"] 3).backends.get? 0 =
      some { url := "A", health_status := .Healthy, weight := 1, current_weight := 0 } := by
    decide
  have hmin : ∀ j c, j < 1 → (LoadBalancer.new ["A", "B"] 3).backends.get? j = some c →
      c.url ≠ "B" := by
    intro j c hj hc
    obtain rfl : j = 0 := by omega
    rw [hA] at hc
    obtain rfl : _ = c := Option.some.inj hc
    decide
  refine ⟨?_, ?_, ?_, ?_⟩
  · exact (h.2.2.1 1 _ hB rfl hmin).1 rfl
  · exact (h.2.2.1 1 _ hB rfl hmin).2.2 0 (by omega)
  · exact (claim7_mark_unhealthy (LoadBalancer.new ["A", "B"] 3) "C").1 (by decide)
  · have := h.2.2.2 3 1 _ (by norm_num) hB rfl rfl hmin
    simpa using this

/-- C8: `mark_healthy(u)` makes the first pool entry whose URL is `u` Healthy
from any `Unhealthy(n)`, preserving its url, weight, `current_weight` and
position and every other backend and state component; on an already-Healthy
backend, or on a URL not present in the pool, the whole state is unchanged. -/
theorem claim8_mark_healthy (s : LoadBalancer) (u : String) :
    ((∀ b ∈ s.backends, b.url ≠ u) → s.mark_healthy u = s) ∧
    ((s.mark_healthy u).current_idx = s.current_idx ∧
     (s.mark_healthy u).strategy = s.strategy ∧
     (s.mark_healthy u).sessions = s.sessions ∧
     (s.mark_healthy u).session_timeout = s.session_timeout ∧
     (s.mark_healthy u).max_failures = s.max_failures) ∧
    (∀ i b, s.backends.get? i = some b → b.url = u →
      (∀ j c, j < i → s.backends.get? j = some c → c.url ≠ u) →
      ((b.health_status = .Healthy → s.mark_healthy u = s) ∧
       (∀ n, b.health_status = .Unhealthy n →
          (s.mark_healthy u).backends.get? i = some { b with health_status := .Healthy } ∧
          ∀ j, j ≠ i → (s.mark_healthy u).backends.get? j = s.backends.get? j))) := by
  refine ⟨?_, ⟨rfl, rfl, rfl, rfl, rfl⟩, ?_⟩
  · intro h
    exact LoadBalancer.eq_of_fields (modifyFirst_not_found h) rfl rfl rfl rfl rfl
  · intro i b hb hu hmin
    have h := modifyFirst_get?_eq
      (f := fun b : Backend =>
        match b.health_status with
        | .Healthy => b
        | .Unhealthy _ => { b with health_status := .Healthy })
      hb hu hmin
    constructor
    · intro hh
      refine LoadBalancer.eq_of_fields ?_ rfl rfl rfl rfl rfl
      refine List.ext_get?_iff.mpr ?_
      intro k
      by_cases hk : k = i
      · subst hk
        show (modifyFirst u _ s.backends).get? k = _
        rw [h.1, hb]
        simp [hh]
      · exact h.2 k hk
    · intro n hn
      constructor
      · show (s.mark_healthy u).backends.get? i = _
        rw [LoadBalancer.mark_healthy]
        simpa [hn] using h.1
      · intro j hj
        show (s.mark_healthy u).backends.get? j = _
        rw [LoadBalancer.mark_healthy]
        exact h.2 j hj

theorem claim8_witness :
    (((LoadBalancer.new ["A", "B"] 3).mark_unhealthy "B").mark_healthy "B").backends.get? 1 =
      some { url := "B", health_status := .Healthy, weight := 1, current_weight := 0 } ∧
    ((LoadBalancer.new ["A", "B"] 3).mark_healthy "A" = LoadBalancer.new ["A", "B"] 3) ∧
    ((LoadBalancer.new ["A", "B"] 3).mark_healthy "Z" = LoadBalancer.new ["A", "B"] 3) := by
  refine ⟨?_, ?_, ?_⟩
  · have h := claim8_mark_healthy ((LoadBalancer.new ["A", "B"] 3).mark_unhealthy "B") "B"
    have hB : ((LoadBalancer.new ["A", "B"] 3).mark_unhealthy "B").backends.get? 1 =
        some { url := "B", health_status := .Unhealthy 1, weight := 1, current_weight := 0 } := by
      decide
    have hA : ((LoadBalancer.new ["A", "B"] 3).mark_unhealthy "B").backends.get? 0 =
        some { url := "A", health_status := .Healthy, weight := 1, current_weight := 0 } := by
      decide
    have hmin : ∀ j c, j < 1 →
        ((LoadBalancer.new ["A", "B"] 3).mark_unhealthy "B").backends.get? j = some c →
        c.url ≠ "B" := by
      intro j c hj hc
      obtain rfl : j = 0 := by omega
      rw [hA] at hc
      obtain rfl : _ = c := Option.some.inj hc
      decide
    exact ((h.2.2 1 _ hB rfl hmin).2 1 rfl).1
  · exact ((claim8_mark_healthy (LoadBalancer.new ["A", "B"] 3) "A").2.2 0
      { url := "A", health_status := .Healthy, weight := 1, current_weight := 0 } (by decide) rfl
      (fun j c hj _ => absurd hj (by omega))).1 rfl
  · exact (claim8_mark_healthy (LoadBalancer.new ["A", "B"] 3) "Z").1 (by decide)

theorem rrLoop_none {bs : List Backend} :
    ∀ (fuel i : Nat), i < bs.length →
      (∀ j, j < fuel → ∀ b, bs.get? ((i + j) % bs.length) = some b →
        b.health_status ≠ .Healthy) →
      rrLoop bs fuel i = (none, (i + fuel) % bs.length) := by
  intro fuel
  induction fuel with
  | zero =>
    intro i hi _
    simp [rrLoop, Nat.mod_eq_of_lt hi]
  | succ fuel ih =>
    intro i hi h
    have hi0 : (i + 0) % bs.length = i := by
      simpa using Nat.mod_eq_of_lt hi
    obtain ⟨b, hbeq⟩ : ∃ b, bs.get? i = some b := by
      rw [List.get?_eq_get hi]
      exact ⟨_, rfl⟩
    have hbu : b.health_status ≠ .Healthy := h 0 (by omega) b (by rwa [hi0])
    have hn : 0 < bs.length := by omega
    have hi' : (i + 1) % bs.length < bs.length := Nat.mod_lt _ hn
    have h' : ∀ j, j < fuel → ∀ c,
        bs.get? (((i + 1) % bs.length + j) % bs.length) = some c →
        c.health_status ≠ .Healthy := by
      intro j hj c hc
      rw [Nat.mod_add_mod] at hc
      exact h (j + 1) (by omega) c (by rwa [show i + (j + 1) = i + 1 + j by omega])
    have := ih ((i + 1) % bs.length) hi' h'
    rw [rrLoop, hbeq]
    show (if b.health_status = HealthStatus.Healthy then (some b.url, (i + 1) % bs.length)
        else rrLoop bs fuel ((i + 1) % bs.length)) = _
    rw [if_neg hbu, this, Nat.mod_add_mod]
    rw [show i + 1 + fuel = i + (fuel + 1) by omega]

theorem rrLoop_some {bs : List Backend} :
    ∀ (fuel i k : Nat) (b : Backend), i < bs.length → k < fuel →
      (∀ j, j < k → ∀ c, bs.get? ((i + j) % bs.length) = some c →
        c.health_status ≠ .Healthy) →
      bs.get? ((i + k) % bs.length) = some b →
      b.health_status = .Healthy →
      rrLoop bs fuel i = (some b.url, ((i + k) % bs.length + 1) % bs.length) := by
  intro fuel
  induction fuel with
  | zero => intro i k b _ hk; omega
  | succ fuel ih =>
    intro i k b hi hk hmin hb hh
    have hi0 : (i + 0) % bs.length = i := by
      simpa using Nat.mod_eq_of_lt hi
    match k with
    | 0 =>
      rw [hi0] at hb
      rw [rrLoop, hb]
      show (if b.health_status = HealthStatus.Healthy then (some b.url, (i + 1) % bs.length)
          else rrLoop bs fuel ((i + 1) % bs.length)) = _
      rw [if_pos hh, hi0]
    | k' + 1 =>
      obtain ⟨c, hceq⟩ : ∃ c, bs.get? i = some c := by
        rw [List.get?_eq_get hi]
        exact ⟨_, rfl⟩
      have hcu : c.health_status ≠ .Healthy := hmin 0 (by omega) c (by rwa [hi0])
      have hn : 0 < bs.length := by omega
      have hi' : (i + 1) % bs.length < bs.length := Nat.mod_lt _ hn
      have hmin' : ∀ j, j < k' → ∀ c,
          bs.get? (((i + 1) % bs.length + j) % bs.length) = some c →
          c.health_status ≠ .Healthy := by
        intro j hj c hc
        rw [Nat.mod_add_mod] at hc
        exact hmin (j + 1) (by omega) c (by rwa [show i + (j + 1) = i + 1 + j by omega])
      have hb' : bs.get? (((i + 1) % bs.length + k') % bs.length) = some b := by
        rw [Nat.mod_add_mod]
        rwa [show i + 1 + k' = i + (k' + 1) by omega]
      have := ih ((i + 1) % bs.length) k' b hi' (by omega) hmin' hb' hh
      rw [rrLoop, hceq]
      show (if c.health_status = HealthStatus.Healthy then (some c.url, (i + 1) % bs.length)
          else rrLoop bs fuel ((i + 1) % bs.length)) = _
      rw [if_neg hcu, this, Nat.mod_add_mod, Nat.add_assoc, Nat.mod_add_mod, Nat.mod_add_mod]
      rw [show i + 1 + (k' + 1) = i + (k' + 1) + 1 by omega]

/-- C4: under round-robin, `select` scans the pool starting at `current_idx`:
it returns the URL of the first Healthy backend found (at offset `k`, all
earlier scanned entries being unhealthy) and sets `current_idx` to one past
that backend's position modulo the pool length; a full revolution with no
Healthy backend — or an empty pool — returns None (leaving the state
unchanged); and on the all-Healthy pool `[A,B,C]` six consecutive selections
return `A,B,C,A,B,C`. -/
theorem claim4_round_robin (s : LoadBalancer) :
    (s.backends = [] → s.get_next_backend_round_robin = (none, s)) ∧
    (s.current_idx < s.backends.length →
      (∀ b ∈ s.backends, b.health_status ≠ .Healthy) →
      s.get_next_backend_round_robin = (none, s)) ∧
    (∀ k b, s.current_idx < s.backends.length → k < s.backends.length →
      (∀ j, j < k → ∀ c,
        s.backends.get? ((s.current_idx + j) % s.backends.length) = some c →
        c.health_status ≠ .Healthy) →
      s.backends.get? ((s.current_idx + k) % s.backends.length) = some b →
      b.health_status = .Healthy →
      s.get_next_backend_round_robin =
        (some b.url,
         { s with current_idx :=
             ((s.current_idx + k) % s.backends.length + 1) % s.backends.length })) ∧
    selListR (LoadBalancer.new ["A", "B", "C"] 3) 6 =
      [some "A", some "B", some "C", some "A", some "B", some "C"] := by
  refine ⟨?_, ?_, ?_, by decide⟩
  · intro h
    simp [LoadBalancer.get_next_backend_round_robin, h]
  · intro hi hall
    have hne : s.backends.isEmpty = false := by
      cases hbs : s.backends with
      | nil => rw [hbs] at hi; simp at hi
      | cons c cs => simp [hbs]
    have h := rrLoop_none s.backends.length s.current_idx hi
      (fun j _ b hb => hall b (List.get?_mem hb))
    rw [LoadBalancer.get_next_backend_round_robin, hne]
    simp only [Bool.false_eq_true, if_false, h]
    rw [Nat.add_mod_right, Nat.mod_eq_of_lt hi]
  · intro k b hi hk hmin hb hh
    have hne : s.backends.isEmpty = false := by
      cases hbs : s.backends with
      | nil => rw [hbs] at hi; simp at hi
      | cons c cs => simp [hbs]
    have h := rrLoop_some s.backends.length s.current_idx k b hi hk hmin hb hh
    rw [LoadBalancer.get_next_backend_round_robin, hne]
    simp only [Bool.false_eq_true, if_false, h]

theorem claim4_witness :
    ((LoadBalancer.new ["B", "A"] 3).mark_unhealthy "B").get_next_backend_round_robin =
      (some "A",
       { (LoadBalancer.new ["B", "A"] 3).mark_unhealthy "B" with current_idx := 0 }) ∧
    (LoadBalancer.new [] 3).get_next_backend_round_robin = (none, LoadBalancer.new [] 3) ∧
    ((LoadBalancer.new ["A"] 3).mark_unhealthy "A").get_next_backend_round_robin =
      (none, (LoadBalancer.new ["A"] 3).mark_unhealthy "A") := by
  refine ⟨?_, ?_, ?_⟩
  · have h := (claim4_round_robin ((LoadBalancer.new ["B", "A"] 3).mark_unhealthy "B")).2.2.1 1
      { url := "A", health_status := .Healthy, weight := 1, current_weight := 0 }
      (by decide) (by decide) ?_ (by decide) rfl
    · exact h
    · intro j hj c hc
      obtain rfl : j = 0 := by omega
      have h0 : ((LoadBalancer.new ["B", "A"] 3).mark_unhealthy "B").backends.get?
          ((((LoadBalancer.new ["B", "A"] 3).mark_unhealthy "B").current_idx + 0) %
            ((LoadBalancer.new ["B", "A"] 3).mark_unhealthy "B").backends.length) =
          some { url := "B", health_status := .Unhealthy 1, weight := 1, current_weight := 0 } := by
        decide
      rw [h0] at hc
      obtain rfl : _ = c := Option.some.inj hc
      decide
  · exact (claim4_round_robin (LoadBalancer.new [] 3)).1 rfl
  · exact (claim4_round_robin ((LoadBalancer.new ["A"] 3).mark_unhealthy "A")).2.1
      (by decide) (by decide)

theorem weighted_frame (t : LoadBalancer) :
    (t.get_next_backend_weighted).2.current_idx = t.current_idx ∧
    (t.get_next_backend_weighted).2.sessions = t.sessions ∧
    (t.get_next_backend_weighted).2.strategy = t.strategy ∧
    (t.get_next_backend_weighted).2.session_timeout = t.session_timeout ∧
    (t.get_next_backend_weighted).2.max_failures = t.max_failures :=
  ⟨rfl, rfl, rfl, rfl, rfl⟩

theorem sticky_hit_eq (s : LoadBalancer) (c : String) (now : Nat)
    (e : SessionInfo) (b : Backend)
    (hstrat : s.strategy = .StickySession)
    (hsess : s.sessions c = some e)
    (hfresh : now - e.last_seen < s.session_timeout)
    (hfind : s.backends.find? (fun x => x.url = e.backend_url) = some b)
    (hh : b.health_status = .Healthy) :
    s.get_next_backend (some c) now =
      (some e.backend_url,
       { s.clean_expired_session now with sessions := fun k =>
           if k = c then
             (Option.some ({ backend_url := e.backend_url, last_seen := now } : SessionInfo))
           else (s.clean_expired_session now).sessions k }) := by
  have h1 : (s.clean_expired_session now).sessions c = some e := by
    simp [LoadBalancer.clean_expired_session, hsess, hfresh]
  have hfind1 : (s.clean_expired_session now).backends.find?
      (fun x => x.url = e.backend_url) = some b := hfind
  simp only [LoadBalancer.get_next_backend, hstrat, LoadBalancer.get_backend_for_client,
    h1, hfind1, hh, if_true]

/-- C5: under the sticky policy, while client `c`'s session entry references a
backend that exists in the pool (the first pool entry with that URL) and is
Healthy, and the selection happens strictly less than `session_timeout`
seconds after the entry's `last_seen`, `select(c)` returns that same URL and
refreshes the entry's `last_seen` to now, leaving the backend list — and so
every weighted accumulator — and all other state components unchanged. -/
theorem claim5_sticky_consistency (s : LoadBalancer) (c : String) (now : Nat)
    (e : SessionInfo) (b : Backend)
    (hstrat : s.strategy = .StickySession)
    (hsess : s.sessions c = some e)
    (hfresh : now - e.last_seen < s.session_timeout)
    (hfind : s.backends.find? (fun x => x.url = e.backend_url) = some b)
    (hh : b.health_status = .Healthy) :
    (s.get_next_backend (some c) now).1 = some e.backend_url ∧
    (s.get_next_backend (some c) now).2.backends = s.backends ∧
    (s.get_next_backend (some c) now).2.sessions c =
      some { backend_url := e.backend_url, last_seen := now } ∧
    (s.get_next_backend (some c) now).2.current_idx = s.current_idx ∧
    (s.get_next_backend (some c) now).2.strategy = s.strategy ∧
    (s.get_next_backend (some c) now).2.session_timeout = s.session_timeout ∧
    (s.get_next_backend (some c) now).2.max_failures = s.max_failures := by
  rw [sticky_hit_eq s c now e b hstrat hsess hfresh hfind hh]
  refine ⟨rfl, rfl, ?_, rfl, rfl, rfl, rfl⟩
  simp

/-- C6: at the start of every sticky selection every session entry whose
`now - last_seen` has reached `session_timeout` is removed; hence a client `c`
whose entry has expired gets a fresh weighted pick (computed on the cleaned
state), which — when it returns a URL — is written back as `c`'s new session
entry with `last_seen = now`; if the weighted pick returns None, `c` ends with
no session entry. -/
theorem claim6_session_expiry (s : LoadBalancer) (c : String) (now : Nat) (e : SessionInfo)
    (hstrat : s.strategy = .StickySession)
    (hsess : s.sessions c = some e)
    (hexp : s.session_timeout ≤ now - e.last_seen) :
    (∀ k ent, s.sessions k = some ent → s.session_timeout ≤ now - ent.last_seen →
      (s.clean_expired_session now).sessions k = none) ∧
    (s.get_next_backend (some c) now).1 =
      ((s.clean_expired_session now).get_next_backend_weighted).1 ∧
    (∀ u, (s.get_next_backend (some c) now).1 = some u →
      (s.get_next_backend (some c) now).2.sessions c =
        some { backend_url := u, last_seen := now }) ∧
    ((s.get_next_backend (some c) now).1 = none →
      (s.get_next_backend (some c) now).2.sessions c = none) := by
  have hclean : ∀ k ent, s.sessions k = some ent → s.session_timeout ≤ now - ent.last_seen →
      (s.clean_expired_session now).sessions k = none := by
    intro k ent hk hke
    simp [LoadBalancer.clean_expired_session, hk, Nat.not_lt.mpr hke]
  have h1 : (s.clean_expired_session now).sessions c = none := hclean c e hsess hexp
  have hstrat1 : (s.clean_expired_session now).strategy = .StickySession := hstrat
  have hmain : s.get_next_backend (some c) now =
      (s.clean_expired_session now).stickyFallback c now := by
    simp only [LoadBalancer.get_next_backend, hstrat, LoadBalancer.get_backend_for_client, h1]
  have hfb : (s.clean_expired_session now).stickyFallback c now =
      (let r := (s.clean_expired_session now).get_next_backend_weighted
       match r.1 with
       | some url =>
         (some url, { r.2 with sessions := fun k =>
           if k = c then
             (Option.some ({ backend_url := url, last_seen := now } : SessionInfo))
           else (r.2.sessions k) })
       | none => (none, r.2)) := by
    simp only [LoadBalancer.stickyFallback, hstrat1]
  refine ⟨hclean, ?_, ?_, ?_⟩
  · rw [hmain, hfb]
    cases hr : ((s.clean_expired_session now).get_next_backend_weighted).1 with
    | none => simp [hr]
    | some url => simp [hr]
  · intro u hu
    rw [hmain, hfb] at hu ⊢
    cases hr : ((s.clean_expired_session now).get_next_backend_weighted).1 with
    | none => simp [hr] at hu
    | some url =>
      simp only [hr] at hu
      obtain rfl : url = u := by simpa using hu
      simp [hr]
  · intro hu
    rw [hmain, hfb] at hu ⊢
    cases hr : ((s.clean_expired_session now).get_next_backend_weighted).1 with
    | some url => simp [hr] at hu
    | none =>
      simp only [hr]
      show ((s.clean_expired_session now).get_next_backend_weighted).2.sessions c = none
      rw [(weighted_frame (s.clean_expired_session now)).2.1]
      exact h1

theorem claim5_witness :
    ((((LoadBalancer.new_weighted [("A", 1)] 3).set_strategy
        .StickySession).get_next_backend (some "9.9.9.9") 0).2.get_next_backend
        (some "9.9.9.9") 10).1 = some "A" ∧
    ((((LoadBalancer.new_weighted [("A", 1)] 3).set_strategy
        .StickySession).get_next_backend (some "9.9.9.9") 0).2.get_next_backend
        (some "9.9.9.9") 10).2.sessions "9.9.9.9" =
      some { backend_url := "A", last_seen := 10 } ∧
    ((((LoadBalancer.new_weighted [("A", 1)] 3).set_strategy
        .StickySession).get_next_backend (some "9.9.9.9") 0).2.get_next_backend
        (some "9.9.9.9") 10).2.backends =
      (((LoadBalancer.new_weighted [("A", 1)] 3).set_strategy
        .StickySession).get_next_backend (some "9.9.9.9") 0).2.backends := by
  have h := claim5_sticky_consistency
    ((((LoadBalancer.new_weighted [("A", 1)] 3).set_strategy
        .StickySession).get_next_backend (some "9.9.9.9") 0).2)
    "9.9.9.9" 10 { backend_url := "A", last_seen := 0 }
    { url := "A", health_status := .Healthy, weight := 1, current_weight := 0 }
    (by decide) (by decide) (by decide) (by decide) rfl
  exact ⟨h.1, h.2.2.1, h.2.1⟩

theorem claim6_witness :
    (((((LoadBalancer.new_weighted [("A", 1)] 3).set_strategy
        .StickySession).get_next_backend (some "9.9.9.9") 0).2.clean_expired_session
        400).sessions "9.9.9.9" = none) ∧
    ((((LoadBalancer.new_weighted [("A", 1)] 3).set_strategy
        .StickySession).get_next_backend (some "9.9.9.9") 0).2.get_next_backend
        (some "9.9.9.9") 400).1 = some "A" ∧
    ((((LoadBalancer.new_weighted [("A", 1)] 3).set_strategy
        .StickySession).get_next_backend (some "9.9.9.9") 0).2.get_next_backend
        (some "9.9.9.9") 400).2.sessions "9.9.9.9" =
      some { backend_url := "A", last_seen := 400 } := by
  have h := claim6_session_expiry
    ((((LoadBalancer.new_weighted [("A", 1)] 3).set_strategy
        .StickySession).get_next_backend (some "9.9.9.9") 0).2)
    "9.9.9.9" 400 { backend_url := "A", last_seen := 0 }
    (by decide) (by decide) (by decide)
  have hpick : ((((((LoadBalancer.new_weighted [("A", 1)] 3).set_strategy
      .StickySession).get_next_backend (some "9.9.9.9") 0).2).clean_expired_session
      400).get_next_backend_weighted).1 = some "A" := by decide
  have h2 := h.2.1.trans hpick
  exact ⟨h.1 "9.9.9.9" { backend_url := "A", last_seen := 0 } (by decide) (by decide),
    h2, h.2.2.1 "A" h2⟩

theorem wrap32_emod (x : Int) : wrap32 x % 2^32 = x % 2^32 := by
  unfold wrap32
  omega

theorem asI32_emod (w : Nat) : asI32 w % 2^32 = (w : Int) % 2^32 := wrap32_emod w

theorem wrap32_eq_self {x : Int} (h1 : -2^31 ≤ x) (h2 : x < 2^31) : wrap32 x = x := by
  unfold wrap32
  omega

theorem wScan_zero_stable :
    ∀ (bs : List Backend) (i : Nat) (acc : WScanAcc),
      (∀ b ∈ bs, b.health_status = .Healthy → b.weight = 0 ∧ b.current_weight = 0) →
      acc.total = 0 → acc.best_weight = 0 →
      wScan bs i acc = (bs, acc) := by
  intro bs
  induction bs with
  | nil => intro i acc _ _ _; rfl
  | cons hd tl ih =>
    intro i acc h ht hbw
    have htl : ∀ b ∈ tl, b.health_status = .Healthy → b.weight = 0 ∧ b.current_weight = 0 :=
      fun b hb => h b (List.mem_cons_of_mem hd hb)
    by_cases hh : hd.health_status = .Healthy
    · obtain ⟨hw, hcw⟩ := h hd (List.mem_cons_self hd tl) hh
      have h1 : wrap32 (acc.total + asI32 hd.weight) = 0 := by
        rw [ht, hw]; decide
      have h2 : wrap32 (hd.current_weight + asI32 hd.weight) = 0 := by
        rw [hcw, hw]; decide
      have hacc : ({ total := 0, best_idx := acc.best_idx, best_weight := 0 } : WScanAcc)
          = acc := by
        cases acc
        simp_all
      have hhd : { hd with current_weight := (0 : Int) } = hd := by
        cases hd
        simp_all
      rw [wScan, if_pos hh]
      simp only [h1, h2, hbw]
      norm_num
      rw [hacc, ih (i + 1) acc htl ht hbw]
      exact ⟨⟨hhd, rfl⟩, rfl⟩
    · rw [wScan, if_neg hh]
      simp only [ih (i + 1) acc htl ht hbw]

theorem wScan_zero_first :
    ∀ (bs : List Backend) (i : Nat),
      (∀ b ∈ bs, b.health_status = .Healthy → b.weight = 0 ∧ b.current_weight = 0) →
      (∃ b ∈ bs, b.health_status = .Healthy) →
      ∃ k b, bs.get? k = some b ∧ b.health_status = .Healthy ∧
        (∀ j c, j < k → bs.get? j = some c → c.health_status ≠ .Healthy) ∧
        wScan bs i { total := 0, best_idx := 0, best_weight := -1 } =
          (bs, { total := 0, best_idx := i + k, best_weight := 0 }) := by
  intro bs
  induction bs with
  | nil => intro i _ hex; simp at hex
  | cons hd tl ih =>
    intro i h hex
    have htl : ∀ b ∈ tl, b.health_status = .Healthy → b.weight = 0 ∧ b.current_weight = 0 :=
      fun b hb => h b (List.mem_cons_of_mem hd hb)
    by_cases hh : hd.health_status = .Healthy
    · obtain ⟨hw, hcw⟩ := h hd (List.mem_cons_self hd tl) hh
      have h1 : wrap32 ((0 : Int) + asI32 hd.weight) = 0 := by
        rw [hw]; decide
      have h2 : wrap32 (hd.current_weight + asI32 hd.weight) = 0 := by
        rw [hcw, hw]; decide
      have hhd : { hd with current_weight := (0 : Int) } = hd := by
        cases hd
        simp_all
      refine ⟨0, hd, rfl, hh, fun j c hj _ => absurd hj (by omega), ?_⟩
      rw [wScan, if_pos hh]
      simp only [h1, h2]
      norm_num
      rw [wScan_zero_stable tl (i + 1) { total := 0, best_idx := i, best_weight := 0 }
        htl rfl rfl, hhd]
      exact ⟨⟨rfl, rfl⟩, rfl⟩
    · have hex' : ∃ b ∈ tl, b.health_status = .Healthy := by
        obtain ⟨b, hb, hbh⟩ := hex
        rcases List.mem_cons.mp hb with rfl | hb'
        · exact absurd hbh hh
        · exact ⟨b, hb', hbh⟩
      obtain ⟨k, b, hk, hbh, hmin, hscan⟩ := ih (i + 1) htl hex'
      refine ⟨k + 1, b, by simpa using hk, hbh, ?_, ?_⟩
      · intro j c hj hc
        match j with
        | 0 =>
          intro hch
          have hchd : hd = c := by simpa using hc
          exact hh (by rw [hchd]; exact hch)
        | j' + 1 =>
          exact hmin j' c (by omega) (by simpa using hc)
      · rw [wScan, if_neg hh]
        simp only [hscan]
        rw [show i + (k + 1) = i + 1 + k by omega]

/-- C2 (amended): under the weighted policy a weight-0 backend CAN be
returned.  Whenever some backend is Healthy and every Healthy backend has
weight 0 and a zero accumulator (e.g. the state the claim itself singles out,
with all-zero accumulators), `select` does not return None: it returns the
URL of the first Healthy backend — a backend whose weight is 0. -/
theorem claim2_amended (s : LoadBalancer)
    (hex : ∃ b ∈ s.backends, b.health_status = .Healthy)
    (hzero : ∀ b ∈ s.backends, b.health_status = .Healthy →
      b.weight = 0 ∧ b.current_weight = 0) :
    ∃ k b, s.backends.get? k = some b ∧ b.health_status = .Healthy ∧ b.weight = 0 ∧
      (∀ j c, j < k → s.backends.get? j = some c → c.health_status ≠ .Healthy) ∧
      pickW s = some b.url := by
  obtain ⟨k, b, hk, hh, hmin, hscan⟩ := wScan_zero_first s.backends 0 hzero hex
  have hany : s.backends.any (fun b => b.health_status = .Healthy) = true := by
    obtain ⟨b0, hb0m, hb0⟩ := hex
    exact List.any_eq_true.mpr ⟨b0, hb0m, by simp [hb0]⟩
  refine ⟨k, b, hk, hh, (hzero b (List.get?_mem hk) hh).1, hmin, ?_⟩
  show (weightedPick s.backends).1 = some b.url
  rw [weightedPick, if_pos hany]
  simp only [hscan]
  norm_num
  exact ⟨b, by simpa using hk, rfl⟩

theorem healthyWeightSum_cons_healthy {hd : Backend} {tl : List Backend}
    (hh : hd.health_status = .Healthy) :
    healthyWeightSum (hd :: tl) = (hd.weight : Int) + healthyWeightSum tl := by
  simp [healthyWeightSum, List.filter_cons, hh]

theorem healthyWeightSum_cons_unhealthy {hd : Backend} {tl : List Backend}
    (hh : ¬hd.health_status = .Healthy) :
    healthyWeightSum (hd :: tl) = healthyWeightSum tl := by
  simp [healthyWeightSum, List.filter_cons, hh]

theorem wrap32_add_cast_emod (t : Int) (w : Nat) :
    wrap32 (t + asI32 w) % 2^32 = (t + (w : Int)) % 2^32 := by
  have h1 := wrap32_emod (t + asI32 w)
  have h2 := asI32_emod w
  omega

theorem emod_glue1 {X T2 H Y : Int} {W : Nat}
    (h1 : X % 2^32 = (T2 + H) % 2^32)
    (h2 : T2 % 2^32 = (Y + (W : Int)) % 2^32) :
    X % 2^32 = (Y + ((W : Int) + H)) % 2^32 := by
  omega

theorem emod_glue2 {A S B C H : Int} {W : Nat}
    (h1 : A % 2^32 = (B + (W : Int)) % 2^32)
    (h2 : S % 2^32 = (C + H) % 2^32) :
    (A + S) % 2^32 = (B + C + ((W : Int) + H)) % 2^32 := by
  omega

theorem emod_glue3 {A S C H : Int} (h1 : S % 2^32 = (C + H) % 2^32) :
    (A + S) % 2^32 = (A + C + H) % 2^32 := by
  omega

theorem emod_glue4 {SL SB H T CW WR : Int}
    (h1 : SL % 2^32 = (SB + H) % 2^32)
    (h2 : T % 2^32 = (0 + H) % 2^32)
    (h3 : WR % 2^32 = (CW - T) % 2^32) :
    (SL - CW + WR) % 2^32 = SB % 2^32 := by
  omega

theorem wScan_total :
    ∀ (bs : List Backend) (i : Nat) (acc : WScanAcc),
      (wScan bs i acc).2.total % 2^32 = (acc.total + healthyWeightSum bs) % 2^32 := by
  intro bs
  induction bs with
  | nil =>
    intro i acc
    simp [wScan, healthyWeightSum]
  | cons hd tl ih =>
    intro i acc
    by_cases hh : hd.health_status = .Healthy
    · rw [wScan, if_pos hh, healthyWeightSum_cons_healthy hh]
      simp only []
      by_cases hcmp : wrap32 (hd.current_weight + asI32 hd.weight) > acc.best_weight
      · rw [if_pos hcmp]
        have h1 := ih (i + 1)
          { total := wrap32 (acc.total + asI32 hd.weight), best_idx := i,
            best_weight := wrap32 (hd.current_weight + asI32 hd.weight) }
        simp only at h1 ⊢
        exact emod_glue1 h1 (wrap32_add_cast_emod acc.total hd.weight)
      · rw [if_neg hcmp]
        have h1 := ih (i + 1) { acc with total := wrap32 (acc.total + asI32 hd.weight) }
        simp only at h1 ⊢
        exact emod_glue1 h1 (wrap32_add_cast_emod acc.total hd.weight)
    · rw [wScan, if_neg hh, healthyWeightSum_cons_unhealthy hh]
      exact ih (i + 1) acc

theorem wScan_cwsum :
    ∀ (bs : List Backend) (i : Nat) (acc : WScanAcc),
      (cwList (wScan bs i acc).1).sum % 2^32 =
        ((cwList bs).sum + healthyWeightSum bs) % 2^32 := by
  intro bs
  induction bs with
  | nil =>
    intro i acc
    simp [wScan, cwList, healthyWeightSum]
  | cons hd tl ih =>
    intro i acc
    by_cases hh : hd.health_status = .Healthy
    · rw [wScan, if_pos hh, healthyWeightSum_cons_healthy hh]
      simp only []
      by_cases hcmp : wrap32 (hd.current_weight + asI32 hd.weight) > acc.best_weight
      · rw [if_pos hcmp]
        have h1 := ih (i + 1)
          { total := wrap32 (acc.total + asI32 hd.weight), best_idx := i,
            best_weight := wrap32 (hd.current_weight + asI32 hd.weight) }
        simp only [cwList, List.map_cons, List.sum_cons] at h1 ⊢
        exact emod_glue2 (wrap32_add_cast_emod hd.current_weight hd.weight) h1
      · rw [if_neg hcmp]
        have h1 := ih (i + 1) { acc with total := wrap32 (acc.total + asI32 hd.weight) }
        simp only [cwList, List.map_cons, List.sum_cons] at h1 ⊢
        exact emod_glue2 (wrap32_add_cast_emod hd.current_weight hd.weight) h1
    · rw [wScan, if_neg hh, healthyWeightSum_cons_unhealthy hh]
      have h1 := ih (i + 1) acc
      simp only [cwList, List.map_cons, List.sum_cons] at h1 ⊢
      exact emod_glue3 h1

theorem cwList_modifyIdx_sum (f : Backend → Backend) :
    ∀ (l : List Backend) (j : Nat) (b : Backend), l.get? j = some b →
      (cwList (modifyIdx f l j)).sum =
        (cwList l).sum - b.current_weight + (f b).current_weight := by
  intro l
  induction l with
  | nil => intro j b hb; simp at hb
  | cons hd tl ih =>
    intro j b hb
    match j with
    | 0 =>
      have hbhd : hd = b := by simpa using hb
      subst hbhd
      simp only [modifyIdx, cwList, List.map_cons, List.sum_cons]
      ring
    | j' + 1 =>
      have hb' : tl.get? j' = some b := by simpa using hb
      simp only [modifyIdx, cwList, List.map_cons, List.sum_cons]
      have := ih j' b hb'
      simp only [cwList] at this
      rw [this]
      ring

theorem weightedPick_some_sum {bs : List Backend} {u : String}
    (h : (weightedPick bs).1 = some u) :
    (cwList (weightedPick bs).2).sum % 2^32 = (cwList bs).sum % 2^32 := by
  by_cases hany : bs.any (fun b => b.health_status = .Healthy) = true
  · rw [weightedPick, if_pos hany] at h ⊢
    simp only [] at h ⊢
    by_cases hneg :
        (wScan bs 0 { total := 0, best_idx := 0, best_weight := -1 }).2.best_weight < 0
    · rw [if_pos hneg] at h
      simp at h
    · rw [if_neg hneg] at h ⊢
      simp only [] at h ⊢
      obtain ⟨bch, hbch, _⟩ := Option.map_eq_some'.mp h
      have hsum := cwList_modifyIdx_sum
        (fun b => { b with current_weight := wrap32 (b.current_weight -
          (wScan bs 0 { total := 0, best_idx := 0, best_weight := -1 }).2.total) })
        (wScan bs 0 { total := 0, best_idx := 0, best_weight := -1 }).1
        (wScan bs 0 { total := 0, best_idx := 0, best_weight := -1 }).2.best_idx bch hbch
      rw [hsum]
      have h1 := wScan_cwsum bs 0 { total := 0, best_idx := 0, best_weight := -1 }
      have h2 := wScan_total bs 0 { total := 0, best_idx := 0, best_weight := -1 }
      have h3 : wrap32 (bch.current_weight -
          (wScan bs 0 { total := 0, best_idx := 0, best_weight := -1 }).2.total) % 2^32 =
          (bch.current_weight -
            (wScan bs 0 { total := 0, best_idx := 0, best_weight := -1 }).2.total) % 2^32 :=
        wrap32_emod _
      exact emod_glue4 h1 h2 h3
  · rw [weightedPick, if_neg hany] at h
    simp at h

theorem weightedPick_no_healthy {bs : List Backend}
    (h : ∀ b ∈ bs, b.health_status ≠ .Healthy) : weightedPick bs = (none, bs) := by
  have hany : bs.any (fun b => b.health_status = .Healthy) = false := by
    rw [List.any_eq_false]
    intro b hb
    simpa using h b hb
  rw [weightedPick, hany]
  simp

theorem modifyFirst_cwList (u : String) (f : Backend → Backend)
    (hf : ∀ b, (f b).current_weight = b.current_weight) :
    ∀ bs : List Backend, cwList (modifyFirst u f bs) = cwList bs := by
  intro bs
  induction bs with
  | nil => rfl
  | cons hd tl ih =>
    by_cases hhd : hd.url = u
    · simp [modifyFirst, hhd, cwList, hf hd]
    · simp only [modifyFirst, if_neg hhd, cwList, List.map_cons]
      simp only [cwList] at ih
      rw [ih]

/-- C10 (amended): the accumulator sum is 0 at construction, and no operation
other than the weighted selection writes any `current_weight` (round-robin
selection, a sticky session hit, `mark_healthy`, `mark_unhealthy`,
`set_weight`, `set_strategy`, `set_session_timeout` and session cleaning all
leave the whole accumulator list unchanged); a weighted selection that
returns a backend preserves the accumulator sum modulo `2^32` (the `i32`
wraparound), and one that returns None with no Healthy backend leaves the
state unchanged.  The all-zero sum is NOT an invariant of every reachable
state, because a weighted selection can return None while a Healthy backend
exists, having added the Healthy weights without subtracting them. -/
theorem claim10_accumulator_sum (s : LoadBalancer) (u : String) :
    (∀ urls mf, (cwList (LoadBalancer.new urls mf).backends).sum = 0) ∧
    (∀ ws mf, (cwList (LoadBalancer.new_weighted ws mf).backends).sum = 0) ∧
    cwList (s.get_next_backend_round_robin).2.backends = cwList s.backends ∧
    cwList (s.mark_healthy u).backends = cwList s.backends ∧
    cwList (s.mark_unhealthy u).backends = cwList s.backends ∧
    (∀ w, cwList (s.set_weight u w).backends = cwList s.backends) ∧
    (∀ p, cwList (s.set_strategy p).backends = cwList s.backends) ∧
    (∀ t, cwList (s.set_session_timeout t).backends = cwList s.backends) ∧
    (∀ now, cwList (s.clean_expired_session now).backends = cwList s.backends) ∧
    (∀ c now e b, s.strategy = .StickySession → s.sessions c = some e →
      now - e.last_seen < s.session_timeout →
      s.backends.find? (fun x => x.url = e.backend_url) = some b →
      b.health_status = .Healthy →
      cwList (s.get_next_backend (some c) now).2.backends = cwList s.backends) ∧
    ((s.get_next_backend_weighted).1 = some u →
      (cwList (s.get_next_backend_weighted).2.backends).sum % 2^32 =
        (cwList s.backends).sum % 2^32) ∧
    ((∀ b ∈ s.backends, b.health_status ≠ .Healthy) →
      s.get_next_backend_weighted = (none, s)) := by
  refine ⟨?_, ?_, ?_, ?_, ?_, ?_, fun p => rfl, fun t => rfl, fun now => rfl, ?_, ?_, ?_⟩
  · intro urls mf
    have hlist : cwList (LoadBalancer.new urls mf).backends =
        urls.map (fun _ => (0 : Int)) := by
      simp only [LoadBalancer.new, cwList, List.map_map]
      rfl
    rw [hlist]
    refine List.sum_eq_zero ?_
    intro x hx
    obtain ⟨a, -, hax⟩ := List.mem_map.mp hx
    exact hax.symm
  · intro ws mf
    have hlist : cwList (LoadBalancer.new_weighted ws mf).backends =
        ws.map (fun _ => (0 : Int)) := by
      simp only [LoadBalancer.new_weighted, cwList, List.map_map]
      rfl
    rw [hlist]
    refine List.sum_eq_zero ?_
    intro x hx
    obtain ⟨a, -, hax⟩ := List.mem_map.mp hx
    exact hax.symm
  · unfold LoadBalancer.get_next_backend_round_robin
    split
    · rfl
    · rfl
  · exact modifyFirst_cwList u
      (fun b =>
        match b.health_status with
        | .Healthy => b
        | .Unhealthy _ => { b with health_status := .Healthy })
      (fun b => by cases hb : b.health_status <;> simp [hb]) s.backends
  · exact modifyFirst_cwList u
      (fun b =>
        match b.health_status with
        | .Healthy => { b with health_status := .Unhealthy 1 }
        | .Unhealthy failures => { b with health_status := .Unhealthy ((failures + 1) % 2^32) })
      (fun b => by cases hb : b.health_status <;> simp [hb]) s.backends
  · intro w
    exact modifyFirst_cwList u (fun b => { b with weight := w }) (fun b => rfl) s.backends
  · intro c now e b hstrat hsess hfresh hfind hh
    rw [sticky_hit_eq s c now e b hstrat hsess hfresh hfind hh]
    rfl
  · intro h
    exact weightedPick_some_sum h
  · intro h
    show ((weightedPick s.backends).1, _) = (none, s)
    rw [weightedPick_no_healthy h]

theorem claim10_witness :
    (cwList (LoadBalancer.new_weighted [("A", 2), ("B", 1)] 0).backends).sum = 0 ∧
    cwList ((LoadBalancer.new_weighted [("A", 2), ("B", 1)] 0).mark_unhealthy "A").backends =
      cwList (LoadBalancer.new_weighted [("A", 2), ("B", 1)] 0).backends ∧
    (cwList ((LoadBalancer.new_weighted [("A", 2), ("B", 1)]
        0).get_next_backend_weighted).2.backends).sum % 2^32 =
      (cwList (LoadBalancer.new_weighted [("A", 2), ("B", 1)] 0).backends).sum % 2^32 ∧
    (((LoadBalancer.new_weighted [("A", 0), ("B", 0)] 0).mark_unhealthy
        "A").mark_unhealthy "B").get_next_backend_weighted =
      (none, ((LoadBalancer.new_weighted [("A", 0), ("B", 0)] 0).mark_unhealthy
        "A").mark_unhealthy "B") := by
  have h1 := claim10_accumulator_sum (LoadBalancer.new_weighted [("A", 2), ("B", 1)] 0) "A"
  have h2 := claim10_accumulator_sum
    (((LoadBalancer.new_weighted [("A", 0), ("B", 0)] 0).mark_unhealthy
      "A").mark_unhealthy "B") "A"
  refine ⟨h1.2.1 [("A", 2), ("B", 1)] 0, h1.2.2.2.2.1, ?_, ?_⟩
  · exact h1.2.2.2.2.2.2.2.2.2.2.1 (by decide)
  · refine h2.2.2.2.2.2.2.2.2.2.2.2 ?_
    decide

theorem sum_map_add (f g : Backend → Int) :
    ∀ bs : List Backend, (bs.map (fun b => f b + g b)).sum =
      (bs.map f).sum + (bs.map g).sum := by
  intro bs
  induction bs with
  | nil => simp
  | cons hd tl ih =>
    simp only [List.map_cons, List.sum_cons, ih]
    ring

theorem sum_lower :
    ∀ (l : List Int) (a : Int), (∀ x ∈ l, a ≤ x) → (l.length : Int) * a ≤ l.sum := by
  intro l
  induction l with
  | nil => intro a _; simp
  | cons hd tl ih =>
    intro a h
    have h1 : a ≤ hd := h hd (List.mem_cons_self hd tl)
    have h2 := ih a (fun x hx => h x (List.mem_cons_of_mem hd hx))
    simp only [List.length_cons, List.sum_cons]
    push_cast
    nlinarith

theorem sum_zero_nonneg_all_zero :
    ∀ l : List Int, (∀ x ∈ l, 0 ≤ x) → l.sum = 0 → ∀ x ∈ l, x = 0 := by
  intro l
  induction l with
  | nil => intro _ _ x hx; simp at hx
  | cons hd tl ih =>
    intro h hsum x hx
    have hhd : 0 ≤ hd := h hd (List.mem_cons_self hd tl)
    have htl : (0 : Int) ≤ tl.sum := by
      have := sum_lower tl 0 (fun x hx => h x (List.mem_cons_of_mem hd hx))
      simpa using this
    simp only [List.sum_cons] at hsum
    rcases List.mem_cons.mp hx with rfl | hx'
    · omega
    · exact ih (fun y hy => h y (List.mem_cons_of_mem hd hy)) (by omega) x hx'

theorem exists_one_le_of_sum :
    ∀ l : List Int, 1 ≤ l.sum → ∃ k v, l.get? k = some v ∧ 1 ≤ v := by
  intro l
  induction l with
  | nil => intro h; simp at h
  | cons hd tl ih =>
    intro h
    simp only [List.sum_cons] at h
    by_cases hhd : 1 ≤ hd
    · exact ⟨0, hd, rfl, hhd⟩
    · obtain ⟨k, v, hk, hv⟩ := ih (by omega)
      exact ⟨k + 1, v, by simpa using hk, hv⟩

theorem modifyIdx_get? (f : Backend → Backend) :
    ∀ (l : List Backend) (j k : Nat),
      (modifyIdx f l j).get? k = if k = j then (l.get? k).map f else l.get? k := by
  intro l
  induction l with
  | nil => intro j k; simp [modifyIdx]
  | cons hd tl ih =>
    intro j k
    match j, k with
    | 0, 0 => simp [modifyIdx]
    | 0, k' + 1 => simp [modifyIdx]
    | j' + 1, 0 => simp [modifyIdx]
    | j' + 1, k' + 1 =>
      simp only [modifyIdx, List.get?]
      rw [ih j' k']
      by_cases hkj : k' = j'
      · simp [hkj]
      · simp [hkj, fun h => hkj (Nat.succ_injective h)]

theorem pickFold_snd_ge_init :
    ∀ (vs : List Int) (i : Nat) (p : Nat × Int), p.2 ≤ (pickFold vs i p).2 := by
  intro vs
  induction vs with
  | nil => intro i p; exact le_refl _
  | cons v tl ih =>
    intro i p
    rw [pickFold]
    by_cases hv : v > p.2
    · rw [if_pos hv]
      have := ih (i + 1) (i, v)
      simp only at this
      omega
    · rw [if_neg hv]
      exact ih (i + 1) p

theorem pickFold_ge_elem :
    ∀ (vs : List Int) (i : Nat) (p : Nat × Int) (k : Nat) (v : Int),
      vs.get? k = some v → v ≤ (pickFold vs i p).2 := by
  intro vs
  induction vs with
  | nil => intro i p k v hk; simp at hk
  | cons hd tl ih =>
    intro i p k v hk
    match k with
    | 0 =>
      have hv : hd = v := by simpa using hk
      subst hv
      rw [pickFold]
      by_cases hcmp : hd > p.2
      · rw [if_pos hcmp]
        have := pickFold_snd_ge_init tl (i + 1) (i, hd)
        simpa using this
      · rw [if_neg hcmp]
        have := pickFold_snd_ge_init tl (i + 1) p
        omega
    | k' + 1 =>
      have hk' : tl.get? k' = some v := by simpa using hk
      rw [pickFold]
      by_cases hcmp : hd > p.2
      · rw [if_pos hcmp]
        exact ih (i + 1) (i, hd) k' v hk'
      · rw [if_neg hcmp]
        exact ih (i + 1) p k' v hk'

theorem pickFold_attained :
    ∀ (vs : List Int) (i : Nat) (p : Nat × Int),
      pickFold vs i p = p ∨
      ∃ k v, vs.get? k = some v ∧ (pickFold vs i p).1 = i + k ∧ (pickFold vs i p).2 = v := by
  intro vs
  induction vs with
  | nil => intro i p; exact Or.inl rfl
  | cons hd tl ih =>
    intro i p
    rw [pickFold]
    by_cases hcmp : hd > p.2
    · rw [if_pos hcmp]
      rcases ih (i + 1) (i, hd) with heq | ⟨k, v, hk, h1, h2⟩
      · refine Or.inr ⟨0, hd, rfl, ?_, ?_⟩
        · rw [heq]
          rfl
        · rw [heq]
      · refine Or.inr ⟨k + 1, v, by simpa using hk, ?_, h2⟩
        rw [h1]
        omega
    · rw [if_neg hcmp]
      rcases ih (i + 1) p with heq | ⟨k, v, hk, h1, h2⟩
      · exact Or.inl heq
      · refine Or.inr ⟨k + 1, v, by simpa using hk, ?_, h2⟩
        rw [h1]
        omega

theorem healthyWeightSum_nonneg (bs : List Backend) : 0 ≤ healthyWeightSum bs := by
  refine List.sum_nonneg ?_
  intro x hx
  obtain ⟨b, -, rfl⟩ := List.mem_map.mp hx
  exact Int.natCast_nonneg _

theorem wScan_ideal :
    ∀ (bs : List Backend) (i : Nat) (acc : WScanAcc) (L U : Int),
      (∀ b ∈ bs, b.health_status = .Healthy) →
      (∀ b ∈ bs, L ≤ b.current_weight + (b.weight : Int) ∧
        b.current_weight + (b.weight : Int) ≤ U) →
      -2^31 ≤ L → U < 2^31 →
      0 ≤ acc.total → acc.total + healthyWeightSum bs < 2^31 →
      wScan bs i acc =
        (addAll bs,
         { total := acc.total + healthyWeightSum bs,
           best_idx := (pickFold (postVals bs) i (acc.best_idx, acc.best_weight)).1,
           best_weight := (pickFold (postVals bs) i (acc.best_idx, acc.best_weight)).2 }) := by
  intro bs
  induction bs with
  | nil =>
    intro i acc L U _ _ _ _ _ _
    show ([], acc) = _
    simp [addAll, postVals, pickFold, healthyWeightSum]
  | cons hd tl ih =>
    intro i acc L U hAH hB hL hU ht0 htB
    have hh : hd.health_status = .Healthy := hAH hd (List.mem_cons_self hd tl)
    have hAH' : ∀ b ∈ tl, b.health_status = .Healthy :=
      fun b hb => hAH b (List.mem_cons_of_mem hd hb)
    have hB' : ∀ b ∈ tl, L ≤ b.current_weight + (b.weight : Int) ∧
        b.current_weight + (b.weight : Int) ≤ U :=
      fun b hb => hB b (List.mem_cons_of_mem hd hb)
    have hwnn : (0 : Int) ≤ (hd.weight : Int) := Int.natCast_nonneg _
    have htlnn : 0 ≤ healthyWeightSum tl := healthyWeightSum_nonneg tl
    have hTtot : healthyWeightSum (hd :: tl) = (hd.weight : Int) + healthyWeightSum tl :=
      healthyWeightSum_cons_healthy hh
    rw [hTtot] at htB
    have hwlt : (hd.weight : Int) < 2^31 := by omega
    have hasI : asI32 hd.weight = (hd.weight : Int) :=
      wrap32_eq_self (by omega) (by omega)
    have htot' : wrap32 (acc.total + asI32 hd.weight) = acc.total + (hd.weight : Int) := by
      rw [hasI]
      exact wrap32_eq_self (by omega) (by omega)
    obtain ⟨hbl, hbu⟩ := hB hd (List.mem_cons_self hd tl)
    have hcw' : wrap32 (hd.current_weight + asI32 hd.weight) =
        hd.current_weight + (hd.weight : Int) := by
      rw [hasI]
      exact wrap32_eq_self (by omega) (by omega)
    rw [wScan, if_pos hh]
    simp only [htot', hcw']
    by_cases hcmp : hd.current_weight + (hd.weight : Int) > acc.best_weight
    · rw [if_pos hcmp]
      have hIH := ih (i + 1)
        { total := acc.total + (hd.weight : Int), best_idx := i,
          best_weight := hd.current_weight + (hd.weight : Int) } L U hAH' hB' hL hU
        (by simp only []; omega) (by simp only []; omega)
      rw [hIH]
      simp only [addAll, postVals, pickFold, List.map_cons, hTtot]
      rw [if_pos (by simpa using hcmp)]
      rw [Int.add_assoc]
    · rw [if_neg hcmp]
      have hIH := ih (i + 1)
        { total := acc.total + (hd.weight : Int), best_idx := acc.best_idx,
          best_weight := acc.best_weight } L U hAH' hB' hL hU
        (by simp only []; omega) (by simp only []; omega)
      rw [hIH]
      simp only [addAll, postVals, pickFold, List.map_cons, hTtot]
      rw [if_neg (by simpa using hcmp)]
      rw [Int.add_assoc]

theorem mem_le_of_sum_lower :
    ∀ (l : List Int) (a : Int), (∀ x ∈ l, a ≤ x) →
      ∀ x ∈ l, x ≤ l.sum - ((l.length : Int) - 1) * a := by
  intro l
  induction l with
  | nil => intro a _ x hx; simp at hx
  | cons hd tl ih =>
    intro a h x hx
    have hhd : a ≤ hd := h hd (List.mem_cons_self hd tl)
    have htl : ∀ y ∈ tl, a ≤ y := fun y hy => h y (List.mem_cons_of_mem hd hy)
    have hlow := sum_lower tl a htl
    simp only [List.sum_cons, List.length_cons]
    rcases List.mem_cons.mp hx with rfl | hx'
    · push_cast
      nlinarith
    · have := ih a htl x hx'
      push_cast
      push_cast at this
      nlinarith

theorem weightSum_cast (bs : List Backend) :
    (bs.map (fun b => (b.weight : Int))).sum = ((weightSum bs : Nat) : Int) := by
  rw [weightSum, Nat.cast_list_sum, List.map_map]
  rfl

theorem healthyWeightSum_all {bs : List Backend}
    (h : ∀ b ∈ bs, b.health_status = .Healthy) :
    healthyWeightSum bs = ((weightSum bs : Nat) : Int) := by
  rw [healthyWeightSum, List.filter_eq_self.mpr (fun b hb => by simpa using h b hb),
    weightSum_cast]

theorem weight_le_weightSum {bs : List Backend} {b : Backend} (hb : b ∈ bs) :
    b.weight ≤ weightSum bs :=
  List.le_sum_of_mem (List.mem_map_of_mem (fun b => b.weight) hb)

theorem modifyIdx_congr (f g : Backend → Backend) :
    ∀ (l : List Backend) (j : Nat),
      (∀ x, l.get? j = some x → f x = g x) → modifyIdx f l j = modifyIdx g l j := by
  intro l j h
  refine List.ext_get?_iff.mpr ?_
  intro k
  rw [modifyIdx_get?, modifyIdx_get?]
  by_cases hkj : k = j
  · subst hkj
    cases hx : l.get? k with
    | none => simp
    | some x => simp [hx, h x hx]
  · simp [hkj]

theorem weighted_step_ideal (s : LoadBalancer)
    (hAH : ∀ b ∈ s.backends, b.health_status = .Healthy)
    (hlo : ∀ b ∈ s.backends, 1 - (weightSum s.backends : Int) ≤ b.current_weight)
    (hsum : (cwList s.backends).sum = 0)
    (hT : 1 ≤ weightSum s.backends)
    (hOV : s.backends.length * weightSum s.backends < 2^31) :
    ∃ j b, s.backends.get? j = some b ∧
      pickW s = some b.url ∧
      stepW s = { s with backends := stepIdeal s.backends j } ∧
      1 ≤ b.current_weight + (b.weight : Int) ∧
      (∀ k c, s.backends.get? k = some c →
        c.current_weight + (c.weight : Int) ≤ b.current_weight + (b.weight : Int)) := by
  have hTz1 : (1 : Int) ≤ (weightSum s.backends : Int) := by exact_mod_cast hT
  have hOVz : (s.backends.length : Int) * (weightSum s.backends : Int) < 2^31 := by
    exact_mod_cast hOV
  have hne : s.backends ≠ [] := by
    intro h
    rw [h] at hT
    simp [weightSum] at hT
  have hn1 : 1 ≤ s.backends.length := List.length_pos.mpr hne
  have hn1z : (1 : Int) ≤ (s.backends.length : Int) := by exact_mod_cast hn1
  have hTle : (weightSum s.backends : Int) ≤
      (s.backends.length : Int) * (weightSum s.backends : Int) := by
    nlinarith
  -- upper bound on each accumulator from the zero sum and the lower bounds
  have hhi : ∀ b ∈ s.backends, b.current_weight ≤
      ((s.backends.length : Int) - 1) * ((weightSum s.backends : Int) - 1) := by
    intro b hb
    have hmem : b.current_weight ∈ cwList s.backends :=
      List.mem_map_of_mem (fun b => b.current_weight) hb
    have h1 := mem_le_of_sum_lower (cwList s.backends) (1 - (weightSum s.backends : Int))
      (fun x hx => by
        obtain ⟨c, hc, rfl⟩ := List.mem_map.mp hx
        exact hlo c hc) b.current_weight hmem
    rw [hsum] at h1
    have hlen : (cwList s.backends).length = s.backends.length := List.length_map _ _
    rw [hlen] at h1
    nlinarith
  -- bounds for the wrap-free scan
  have hBnd : ∀ b ∈ s.backends,
      1 - (weightSum s.backends : Int) ≤ b.current_weight + (b.weight : Int) ∧
      b.current_weight + (b.weight : Int) ≤
        ((s.backends.length : Int) - 1) * ((weightSum s.backends : Int) - 1) +
          (weightSum s.backends : Int) := by
    intro b hb
    have h1 := hlo b hb
    have h2 := hhi b hb
    have h3 : (b.weight : Int) ≤ (weightSum s.backends : Int) := by
      exact_mod_cast weight_le_weightSum hb
    have h4 : (0 : Int) ≤ (b.weight : Int) := Int.natCast_nonneg _
    constructor <;> nlinarith
  have hL : -2^31 ≤ 1 - (weightSum s.backends : Int) := by nlinarith
  have hU : ((s.backends.length : Int) - 1) * ((weightSum s.backends : Int) - 1) +
      (weightSum s.backends : Int) < 2^31 := by nlinarith
  have hws : healthyWeightSum s.backends = ((weightSum s.backends : Nat) : Int) :=
    healthyWeightSum_all hAH
  have htotB : (0 : Int) + healthyWeightSum s.backends < 2^31 := by
    rw [hws]
    nlinarith
  have hscan := wScan_ideal s.backends 0 { total := 0, best_idx := 0, best_weight := -1 }
    (1 - (weightSum s.backends : Int))
    (((s.backends.length : Int) - 1) * ((weightSum s.backends : Int) - 1) +
      (weightSum s.backends : Int))
    hAH hBnd hL hU (le_refl 0) htotB
  -- a post-add value of at least 1 exists
  have hpostsum : (postVals s.backends).sum = (weightSum s.backends : Int) := by
    rw [postVals]
    rw [show (fun b : Backend => b.current_weight + (b.weight : Int)) =
      (fun b : Backend => (fun c => c.current_weight) b + (fun c => (c.weight : Int)) b)
      from rfl]
    rw [sum_map_add]
    have : (s.backends.map (fun c => c.current_weight)).sum = 0 := hsum
    rw [this, weightSum_cast]
    ring
  obtain ⟨k0, v0, hk0, hv0⟩ := exists_one_le_of_sum (postVals s.backends)
    (by rw [hpostsum]; exact hTz1)
  have hpf2_ge : 1 ≤ (pickFold (postVals s.backends) 0 (0, -1)).2 :=
    le_trans hv0 (pickFold_ge_elem _ 0 (0, -1) k0 v0 hk0)
  rcases pickFold_attained (postVals s.backends) 0 (0, -1) with heq | ⟨k, v, hk, hpf1, hpf2⟩
  · rw [heq] at hpf2_ge
    norm_num at hpf2_ge
  · -- the chosen backend
    rw [postVals, List.get?_map] at hk
    obtain ⟨b, hb, hbv⟩ := Option.map_eq_some'.mp hk
    have hany : s.backends.any (fun b => b.health_status = .Healthy) = true := by
      refine List.any_eq_true.mpr ?_
      obtain ⟨c, hc⟩ := List.exists_mem_of_ne_nil s.backends hne
      exact ⟨c, hc, by simp [hAH c hc]⟩
    refine ⟨k, b, hb, ?_, ?_, ?_, ?_⟩
    · -- the returned URL
      show (weightedPick s.backends).1 = some b.url
      rw [weightedPick, if_pos hany]
      simp only []
      rw [hscan]
      simp only []
      rw [if_neg (by rw [hpf2, ← hbv]; omega)]
      simp only [hpf1, Nat.zero_add, addAll, List.get?_map, hb]
      rfl
    · -- the new state
      show { s with backends := (weightedPick s.backends).2 } = _
      have hback : (weightedPick s.backends).2 = stepIdeal s.backends k := by
        rw [weightedPick, if_pos hany]
        simp only []
        rw [hscan]
        simp only []
        rw [if_neg (by rw [hpf2, ← hbv]; omega)]
        simp only [hpf1, Nat.zero_add]
        rw [stepIdeal]
        refine modifyIdx_congr _ _ _ k ?_
        intro x hx
        rw [addAll, List.get?_map, hb] at hx
        obtain rfl : _ = x := Option.some.inj hx
        have hv1 : 1 ≤ b.current_weight + (b.weight : Int) := by rw [hbv]; omega
        obtain ⟨hbL, hbU⟩ := hBnd b (List.get?_mem hb)
        have harg : wrap32 (b.current_weight + (b.weight : Int) -
            ((0 : Int) + healthyWeightSum s.backends)) =
            b.current_weight + (b.weight : Int) - (weightSum s.backends : Int) := by
          rw [hws, zero_add]
          refine wrap32_eq_self (by nlinarith) (by nlinarith)
        simp only []
        rw [harg]
      rw [hback]
    · rw [hbv, ← hpf2]
      exact hpf2_ge
    · intro k' c hc
      have hck : (postVals s.backends).get? k' = some (c.current_weight + (c.weight : Int)) := by
        rw [postVals, List.get?_map, hc]
        rfl
      have := pickFold_ge_elem (postVals s.backends) 0 (0, -1) k'
        (c.current_weight + (c.weight : Int)) hck
      rw [hpf2, ← hbv] at this
      exact this

theorem iterW_succ_right : ∀ (m : Nat) (s : LoadBalancer),
    iterW s (m + 1) = stepW (iterW s m) := by
  intro m
  induction m with
  | zero => intro s; rfl
  | succ m ih =>
    intro s
    show iterW (stepW s) (m + 1) = stepW (iterW (stepW s) m)
    exact ih (stepW s)

theorem iterW_add : ∀ (a b : Nat) (s : LoadBalancer),
    iterW s (a + b) = iterW (iterW s a) b := by
  intro a
  induction a with
  | zero =>
    intro b s
    rw [Nat.zero_add]
    rfl
  | succ a ih =>
    intro b s
    show iterW s (a + 1 + b) = iterW (iterW (stepW s) a) b
    rw [show a + 1 + b = (a + b) + 1 by omega]
    show iterW (stepW s) (a + b) = _
    exact ih b (stepW s)

theorem selListW_succ : ∀ (m : Nat) (s : LoadBalancer),
    selListW s (m + 1) = selListW s m ++ [pickW (iterW s m)] := by
  intro m
  induction m with
  | zero => intro s; rfl
  | succ m ih =>
    intro s
    show pickW s :: selListW (stepW s) (m + 1) = (pickW s :: selListW (stepW s) m) ++ _
    rw [ih (stepW s)]
    rfl

theorem stepIdeal_get? (bs : List Backend) (j : Nat) :
    ∀ k, (stepIdeal bs j).get? k =
      (bs.get? k).map (fun b =>
        { b with current_weight := b.current_weight + (b.weight : Int) -
            (if k = j then (weightSum bs : Int) else 0) }) := by
  intro k
  rw [stepIdeal, modifyIdx_get?]
  by_cases hkj : k = j
  · subst hkj
    rw [addAll, List.get?_map, Option.map_map]
    cases bs.get? k with
    | none => simp
    | some b => simp
  · rw [if_neg hkj, addAll, List.get?_map]
    cases bs.get? k with
    | none => simp
    | some b => simp [hkj]

theorem length_eq_of_get?_map {l₁ l₂ : List Backend} {f : Backend → Backend}
    (h : ∀ i, l₁.get? i = (l₂.get? i).map f) : l₁.length = l₂.length := by
  have h1 : ∀ i, l₁.get? i = none ↔ l₂.get? i = none := by
    intro i
    rw [h i]
    cases l₂.get? i <;> simp
  have h2 := (h1 l₂.length).mpr (List.get?_eq_none.mpr (le_refl _))
  have h3 : ¬(l₁.get? l₁.length ≠ none) := by
    simp [List.get?_eq_none]
  have h4 := (h1 l₁.length).mp (List.get?_eq_none.mpr (le_refl _))
  rw [List.get?_eq_none] at h2 h4
  omega

theorem map_weight_eq_of_get?_map {l₁ l₂ : List Backend} {f : Backend → Backend}
    (hf : ∀ b, (f b).weight = b.weight)
    (h : ∀ i, l₁.get? i = (l₂.get? i).map f) :
    l₁.map (fun b => b.weight) = l₂.map (fun b => b.weight) := by
  refine List.ext_get?_iff.mpr ?_
  intro i
  rw [List.get?_map, List.get?_map, h i, Option.map_map]
  cases l₂.get? i with
  | none => rfl
  | some b => simp [Function.comp, hf b]

theorem weightSum_eq_of_get?_map {l₁ l₂ : List Backend} {f : Backend → Backend}
    (hf : ∀ b, (f b).weight = b.weight)
    (h : ∀ i, l₁.get? i = (l₂.get? i).map f) : weightSum l₁ = weightSum l₂ := by
  rw [weightSum, weightSum, map_weight_eq_of_get?_map hf h]

theorem url_get?_inj {bs : List Backend} (hND : (bs.map (fun b => b.url)).Nodup)
    {i j : Nat} {bi bj : Backend} (hi : bs.get? i = some bi) (hj : bs.get? j = some bj)
    (huv : bi.url = bj.url) : i = j := by
  have h1 : (bs.map (fun b => b.url)).get? i = some bi.url := by
    rw [List.get?_map, hi]
    rfl
  have h2 : (bs.map (fun b => b.url)).get? j = some bj.url := by
    rw [List.get?_map, hj]
    rfl
  have hlen : i < (bs.map (fun b => b.url)).length := by
    rw [List.length_map]
    exact (List.get?_eq_some.mp hi).1
  refine List.get?_inj hlen hND ?_
  rw [h1, h2, huv]

theorem cwList_addAll (bs : List Backend) : cwList (addAll bs) = postVals bs := by
  rw [cwList, addAll, List.map_map]
  rfl

theorem postVals_sum (bs : List Backend) :
    (postVals bs).sum = (cwList bs).sum + ((weightSum bs : Nat) : Int) := by
  rw [postVals]
  rw [show (fun b : Backend => b.current_weight + (b.weight : Int)) =
    (fun b : Backend => (fun c => c.current_weight) b + (fun c => (c.weight : Int)) b)
    from rfl]
  rw [sum_map_add, weightSum_cast]
  rfl

theorem weighted_evolution (s0 : LoadBalancer)
    (hAH0 : ∀ b ∈ s0.backends, b.health_status = .Healthy)
    (hzero : ∀ b ∈ s0.backends, b.current_weight = 0)
    (hND : (s0.backends.map (fun b => b.url)).Nodup)
    (hT : 1 ≤ weightSum s0.backends)
    (hOV : s0.backends.length * weightSum s0.backends < 2^31) :
    ∀ m,
      (∀ i, (iterW s0 m).backends.get? i =
        (s0.backends.get? i).map (fun b0 =>
          { b0 with current_weight := (m : Int) * (b0.weight : Int) -
              (((selListW s0 m).count (some b0.url) : Int)) *
                (weightSum s0.backends : Int) })) ∧
      (∀ b ∈ (iterW s0 m).backends, 1 - (weightSum s0.backends : Int) ≤ b.current_weight) ∧
      ((cwList (iterW s0 m).backends).sum = 0) ∧
      ((iterW s0 m).current_idx = s0.current_idx ∧
       (iterW s0 m).strategy = s0.strategy ∧
       (iterW s0 m).sessions = s0.sessions ∧
       (iterW s0 m).session_timeout = s0.session_timeout ∧
       (iterW s0 m).max_failures = s0.max_failures) := by
  have hTz : (1 : Int) ≤ (weightSum s0.backends : Int) := by exact_mod_cast hT
  intro m
  induction m with
  | zero =>
    refine ⟨?_, ?_, ?_, rfl, rfl, rfl, rfl, rfl⟩
    · intro i
      show s0.backends.get? i = _
      cases hi : s0.backends.get? i with
      | none => rfl
      | some b0 =>
        have hb0 : b0.current_weight = 0 := hzero b0 (List.get?_mem hi)
        simp only [Option.map_some']
        congr 1
        show b0 = _
        cases b0
        simp_all [selListW]
    · intro b hb
      have := hzero b hb
      omega
    · refine List.sum_eq_zero ?_
      intro x hx
      obtain ⟨c, hc, rfl⟩ := List.mem_map.mp hx
      exact hzero c hc
  | succ m ih =>
    obtain ⟨ih1, ih2, ih3, ihf⟩ := ih
    have hAHt : ∀ b ∈ (iterW s0 m).backends, b.health_status = .Healthy := by
      intro b hb
      obtain ⟨i, hi⟩ := List.mem_iff_get?.mp hb
      rw [ih1 i] at hi
      cases hs : s0.backends.get? i with
      | none => rw [hs] at hi; simp at hi
      | some b0 =>
        rw [hs] at hi
        simp only [Option.map_some'] at hi
        obtain rfl : _ = b := Option.some.inj hi
        exact hAH0 b0 (List.get?_mem hs)
    have hWeq : weightSum (iterW s0 m).backends = weightSum s0.backends := by
      refine weightSum_eq_of_get?_map ?_ ih1
      intro b0
      rfl
    have hLeq : (iterW s0 m).backends.length = s0.backends.length :=
      length_eq_of_get?_map ih1
    have hlo_t : ∀ b ∈ (iterW s0 m).backends,
        1 - (weightSum (iterW s0 m).backends : Int) ≤ b.current_weight := by
      rw [hWeq]
      exact ih2
    have hT' : 1 ≤ weightSum (iterW s0 m).backends := by rw [hWeq]; exact hT
    have hOV' : (iterW s0 m).backends.length * weightSum (iterW s0 m).backends < 2^31 := by
      rw [hWeq, hLeq]
      exact hOV
    obtain ⟨j, b, hjb, hpick, hstep, hpos, hmax⟩ :=
      weighted_step_ideal (iterW s0 m) hAHt hlo_t ih3 hT' hOV'
    have hiter : iterW s0 (m + 1) =
        { iterW s0 m with backends := stepIdeal (iterW s0 m).backends j } := by
      rw [iterW_succ_right, hstep]
    have hjb1 := hjb
    rw [ih1 j] at hjb1
    cases hs0j : s0.backends.get? j with
    | none =>
      rw [hs0j] at hjb1
      simp at hjb1
    | some b0j =>
    rw [hs0j] at hjb1
    simp only [Option.map_some'] at hjb1
    have hbeq : b = { b0j with current_weight := (m : Int) * (b0j.weight : Int) -
        (((selListW s0 m).count (some b0j.url) : Int)) * (weightSum s0.backends : Int) } :=
      (Option.some.inj hjb1).symm
    have hburl : b.url = b0j.url := by rw [hbeq]
    have hbw : b.weight = b0j.weight := by rw [hbeq]
    have hpickt : pickW (iterW s0 m) = some b0j.url := by rw [hpick, hburl]
    have hcount : ∀ u : String, (selListW s0 (m + 1)).count (some u) =
        (selListW s0 m).count (some u) + (if b0j.url = u then 1 else 0) := by
      intro u
      rw [selListW_succ, List.count_append, hpickt]
      congr 1
      rw [List.count_cons, List.count_nil]
      by_cases hu : b0j.url = u
      · simp [hu]
      · simp [hu, fun h => hu (Option.some.inj h)]
    refine ⟨?_, ?_, ?_, ?_⟩
    · -- the accumulator formula
      intro i
      rw [hiter]
      show (stepIdeal (iterW s0 m).backends j).get? i = _
      rw [stepIdeal_get? _ j i, ih1 i, hWeq]
      cases hs : s0.backends.get? i with
      | none => rfl
      | some b0 =>
        simp only [Option.map_some']
        congr 1
        by_cases hij : i = j
        · subst hij
          have hb0eq : b0 = b0j := by
            rw [hs] at hs0j
            exact Option.some.inj hs0j
          subst hb0eq
          rw [hcount b0.url, if_pos rfl, if_pos rfl]
          cases b0
          simp only []
          congr 1
          push_cast
          ring
        · have hne : b0j.url ≠ b0.url := by
            intro hurl
            exact hij (url_get?_inj hND hs hs0j hurl.symm)
          rw [hcount b0.url, if_neg hne, if_neg hij]
          cases b0
          simp only []
          congr 1
          push_cast
          ring
    · -- lower bounds
      intro b' hb'
      rw [hiter] at hb'
      obtain ⟨i, hi0⟩ := List.mem_iff_get?.mp hb'
      have hi : (stepIdeal (iterW s0 m).backends j).get? i = some b' := hi0
      rw [stepIdeal_get? _ j i, hWeq] at hi
      cases ht : (iterW s0 m).backends.get? i with
      | none => rw [ht] at hi; simp at hi
      | some bt =>
        rw [ht] at hi
        simp only [Option.map_some'] at hi
        obtain rfl : _ = b' := Option.some.inj hi
        simp only []
        by_cases hij : i = j
        · subst hij
          have hbt : bt = b := by
            rw [ht] at hjb
            exact Option.some.inj hjb
          subst hbt
          rw [if_pos rfl]
          omega
        · rw [if_neg hij]
          have h1 := ih2 bt (List.get?_mem ht)
          have h2 : (0 : Int) ≤ (bt.weight : Int) := Int.natCast_nonneg _
          omega
    · -- the accumulator sum
      rw [hiter]
      show (cwList (stepIdeal (iterW s0 m).backends j)).sum = 0
      rw [stepIdeal]
      have haj : (addAll (iterW s0 m).backends).get? j = some
          { b with current_weight := b.current_weight + (b.weight : Int) } := by
        rw [addAll, List.get?_map, hjb]
        rfl
      rw [cwList_modifyIdx_sum _ _ _ _ haj, cwList_addAll, postVals_sum, ih3, hWeq]
      simp only []
      ring
    · -- the frame fields
      rw [hiter]
      exact ihf

theorem sum_map_mul_left (a : Int) (f : Backend → Int) :
    ∀ bs : List Backend, (bs.map (fun b => a * f b)).sum = a * (bs.map f).sum := by
  intro bs
  induction bs with
  | nil => simp
  | cons hd tl ih =>
    simp only [List.map_cons, List.sum_cons, ih]
    ring

theorem map_cw_eq_of_get?_map {l₁ l₂ : List Backend} {f : Backend → Backend}
    (g : Backend → Int) (hg : ∀ b, (f b).current_weight = g b)
    (h : ∀ i, l₁.get? i = (l₂.get? i).map f) :
    cwList l₁ = l₂.map g := by
  refine List.ext_get?_iff.mpr ?_
  intro i
  rw [cwList, List.get?_map, List.get?_map, h i, Option.map_map]
  cases l₂.get? i with
  | none => rfl
  | some b => simp [Function.comp, hg b]

theorem weighted_period (s0 : LoadBalancer)
    (hAH0 : ∀ b ∈ s0.backends, b.health_status = .Healthy)
    (hzero : ∀ b ∈ s0.backends, b.current_weight = 0)
    (hND : (s0.backends.map (fun b => b.url)).Nodup)
    (hT : 1 ≤ weightSum s0.backends)
    (hOV : s0.backends.length * weightSum s0.backends < 2 ^ 31) :
    (∀ i b0, s0.backends.get? i = some b0 →
      (selListW s0 (weightSum s0.backends)).count (some b0.url) = b0.weight) ∧
    iterW s0 (weightSum s0.backends) = s0 := by
  obtain ⟨hE1, hE2, hE3, hEf⟩ :=
    weighted_evolution s0 hAH0 hzero hND hT hOV (weightSum s0.backends)
  have hTz : (1 : Int) ≤ ((weightSum s0.backends : Nat) : Int) := by exact_mod_cast hT
  have key : ∀ i b0, s0.backends.get? i = some b0 →
      (0 : Int) ≤ (b0.weight : Int) -
        ((selListW s0 (weightSum s0.backends)).count (some b0.url) : Int) := by
    intro i b0 hs
    have hgi : (iterW s0 (weightSum s0.backends)).backends.get? i = some
        { b0 with current_weight :=
            ((weightSum s0.backends : Nat) : Int) * (b0.weight : Int) -
              (((selListW s0 (weightSum s0.backends)).count (some b0.url) : Int)) *
                ((weightSum s0.backends : Nat) : Int) } := by
      rw [hE1 i, hs]
      rfl
    have hlow := hE2 _ (List.get?_mem hgi)
    have hlow' : 1 - ((weightSum s0.backends : Nat) : Int) ≤
        ((weightSum s0.backends : Nat) : Int) * (b0.weight : Int) -
          (((selListW s0 (weightSum s0.backends)).count (some b0.url) : Int)) *
            ((weightSum s0.backends : Nat) : Int) := hlow
    by_contra hneg
    push_neg at hneg
    have hd : (b0.weight : Int) -
        ((selListW s0 (weightSum s0.backends)).count (some b0.url) : Int) ≤ -1 := by
      omega
    have hmul : ((weightSum s0.backends : Nat) : Int) *
        ((b0.weight : Int) -
          ((selListW s0 (weightSum s0.backends)).count (some b0.url) : Int)) ≤
        ((weightSum s0.backends : Nat) : Int) * (-1) :=
      mul_le_mul_of_nonneg_left hd (by omega)
    nlinarith [hlow', hmul]
  have hcw : cwList (iterW s0 (weightSum s0.backends)).backends =
      s0.backends.map (fun b0 => ((weightSum s0.backends : Nat) : Int) *
        ((b0.weight : Int) -
          ((selListW s0 (weightSum s0.backends)).count (some b0.url) : Int))) := by
    refine map_cw_eq_of_get?_map _ ?_ hE1
    intro b
    show ((weightSum s0.backends : Nat) : Int) * (b.weight : Int) -
        (((selListW s0 (weightSum s0.backends)).count (some b.url) : Int)) *
          ((weightSum s0.backends : Nat) : Int) = _
    ring
  have h1 : ((weightSum s0.backends : Nat) : Int) *
      (s0.backends.map (fun b0 => (b0.weight : Int) -
        ((selListW s0 (weightSum s0.backends)).count (some b0.url) : Int))).sum = 0 := by
    rw [← sum_map_mul_left, ← hcw]
    exact hE3
  have hsumE : (s0.backends.map (fun b0 => (b0.weight : Int) -
      ((selListW s0 (weightSum s0.backends)).count (some b0.url) : Int))).sum = 0 := by
    rcases mul_eq_zero.mp h1 with h | h
    · omega
    · exact h
  have hnonnegE : ∀ x ∈ s0.backends.map (fun b0 => (b0.weight : Int) -
      ((selListW s0 (weightSum s0.backends)).count (some b0.url) : Int)), 0 ≤ x := by
    intro x hx
    obtain ⟨b0, hb0, rfl⟩ := List.mem_map.mp hx
    obtain ⟨i, hi⟩ := List.mem_iff_get?.mp hb0
    exact key i b0 hi
  have hallz := sum_zero_nonneg_all_zero _ hnonnegE hsumE
  have hcounts : ∀ i b0, s0.backends.get? i = some b0 →
      (selListW s0 (weightSum s0.backends)).count (some b0.url) = b0.weight := by
    intro i b0 hs
    have hmem : ((b0.weight : Int) -
        ((selListW s0 (weightSum s0.backends)).count (some b0.url) : Int)) ∈
        s0.backends.map (fun b0 => (b0.weight : Int) -
          ((selListW s0 (weightSum s0.backends)).count (some b0.url) : Int)) :=
      List.mem_map_of_mem _ (List.get?_mem hs)
    have hz := hallz _ hmem
    omega
  refine ⟨hcounts, ?_⟩
  refine LoadBalancer.eq_of_fields ?_ hEf.1 hEf.2.2.2.2 hEf.2.1 hEf.2.2.1 hEf.2.2.2.1
  refine List.ext_get?_iff.mpr ?_
  intro i
  rw [hE1 i]
  cases hs : s0.backends.get? i with
  | none => rfl
  | some b0 =>
    simp only [Option.map_some']
    have hc := hcounts i b0 hs
    have hz0 := hzero b0 (List.get?_mem hs)
    congr 1
    have hX : ((weightSum s0.backends : Nat) : Int) * (b0.weight : Int) -
        (((selListW s0 (weightSum s0.backends)).count (some b0.url) : Int)) *
          ((weightSum s0.backends : Nat) : Int) = b0.current_weight := by
      rw [hc, hz0]
      ring
    rw [hX]

theorem window_count_const (s0 : LoadBalancer)
    (hper : iterW s0 (weightSum s0.backends) = s0) :
    ∀ (k : Nat) (x : Option String),
      (selListW (iterW s0 k) (weightSum s0.backends)).count x =
      (selListW s0 (weightSum s0.backends)).count x := by
  intro k
  induction k with
  | zero => intro x; rfl
  | succ k ih =>
    intro x
    have ht : iterW (iterW s0 k) (weightSum s0.backends) = iterW s0 k := by
      rw [← iterW_add, Nat.add_comm, iterW_add, hper]
    have h1 : selListW (iterW s0 k) (weightSum s0.backends + 1) =
        selListW (iterW s0 k) (weightSum s0.backends) ++ [pickW (iterW s0 k)] := by
      rw [selListW_succ, ht]
    have h2 : selListW (iterW s0 k) (weightSum s0.backends + 1) =
        pickW (iterW s0 k) :: selListW (iterW s0 (k + 1)) (weightSum s0.backends) := by
      rw [iterW_succ_right]
      rfl
    have h3 := h1.symm.trans h2
    have h4 := congrArg (fun l => List.count x l) h3
    simp only [List.count_append, List.count_cons, List.count_nil] at h4
    rw [← ih x]
    by_cases hpx : pickW (iterW s0 k) == x
    · simp only [hpx] at h4
      omega
    · simp only [hpx] at h4
      omega

/-- C3: on a stable all-Healthy pool with distinct URLs, weights `w_1..w_n` and
total `T = Σ w_i`, starting from the all-zero accumulator state, every window of
`T` consecutive weighted selections — the window beginning after any number `k`
of earlier selections — returns backend `i` exactly `w_i` times, PROVIDED the
accumulators stay inside `i32` range (`n * T < 2^31`); without that bound the
claim fails (see the weight-`2^31` counterexample). -/
theorem claim3_weighted_fairness (s0 : LoadBalancer)
    (hAH0 : ∀ b ∈ s0.backends, b.health_status = .Healthy)
    (hzero : ∀ b ∈ s0.backends, b.current_weight = 0)
    (hND : (s0.backends.map (fun b => b.url)).Nodup)
    (hOV : s0.backends.length * weightSum s0.backends < 2 ^ 31) :
    ∀ (k i : Nat) (b0 : Backend), s0.backends.get? i = some b0 →
      (selListW (iterW s0 k) (weightSum s0.backends)).count (some b0.url) = b0.weight := by
  intro k i b0 hs
  by_cases hT : 1 ≤ weightSum s0.backends
  · obtain ⟨hcounts, hper⟩ := weighted_period s0 hAH0 hzero hND hT hOV
    rw [window_count_const s0 hper k (some b0.url)]
    exact hcounts i b0 hs
  · have hw : b0.weight = 0 := by
      have h1 := weight_le_weightSum (List.get?_mem hs)
      omega
    have hT0 : weightSum s0.backends = 0 := by omega
    rw [hT0, hw]
    rfl

theorem claim3_witness :
    (selListW (iterW lb3w 1) (weightSum lb3w.backends)).count (some "A") = 2 := by
  have h := claim3_weighted_fairness lb3w (by decide) (by decide) (by decide)
    (by decide) 1 0 ⟨"A", .Healthy, 2, 0⟩ (by decide)
  exact h

theorem stepW_sBig1 : stepW sBig1 = sBig1 := by
  refine LoadBalancer.eq_of_fields ?_ rfl rfl rfl rfl rfl
  decide

theorem iterW_sBig1 : ∀ m, iterW sBig1 m = sBig1 := by
  intro m
  induction m with
  | zero => rfl
  | succ m ih => rw [iterW_succ_right, ih, stepW_sBig1]

theorem selListW_sBig1 : ∀ m, selListW sBig1 m = List.replicate m (some "A") := by
  intro m
  induction m with
  | zero => rfl
  | succ m ih =>
    show pickW sBig1 :: selListW (stepW sBig1) m = _
    rw [stepW_sBig1, ih, show pickW sBig1 = some "A" from by decide]
    rfl

theorem claim3_counterexample :
    (∀ b ∈ lbBig.backends, b.health_status = .Healthy) ∧
    (∀ b ∈ lbBig.backends, b.current_weight = 0) ∧
    (lbBig.backends.map (fun b => b.url)).Nodup ∧
    weightSum lbBig.backends = 2 ^ 31 ∧
    lbBig.backends.get? 0 = some ⟨"A", .Healthy, 2 ^ 31, 0⟩ ∧
    (selListW lbBig (weightSum lbBig.backends)).count (some "A") = 2 ^ 31 - 1 ∧
    (2 ^ 31 - 1 : Nat) ≠ 2 ^ 31 := by
  refine ⟨by decide, by decide, by decide, by decide, by decide, ?_, by decide⟩
  have hT : weightSum lbBig.backends = 2 ^ 31 - 1 + 1 := by decide
  rw [hT]
  have hsel : selListW lbBig (2 ^ 31 - 1 + 1) =
      (none : Option String) :: List.replicate (2 ^ 31 - 1) (some "A") := by
    show pickW lbBig :: selListW (stepW lbBig) (2 ^ 31 - 1) = _
    rw [show pickW lbBig = none from by decide,
      show stepW lbBig = sBig1 from rfl, selListW_sBig1]
  rw [hsel, List.count_cons_of_ne (by decide), List.count_replicate_self]

theorem claim2_amended_witness :
    ∃ k b,
      ((LoadBalancer.new_weighted [("X", 5), ("Z", 0)] 3).mark_unhealthy
        "X").backends.get? k = some b ∧
      b.health_status = .Healthy ∧ b.weight = 0 ∧
      (∀ j c, j < k →
        ((LoadBalancer.new_weighted [("X", 5), ("Z", 0)] 3).mark_unhealthy
          "X").backends.get? j = some c → c.health_status ≠ .Healthy) ∧
      pickW ((LoadBalancer.new_weighted [("X", 5), ("Z", 0)] 3).mark_unhealthy "X") =
        some b.url :=
  claim2_amended ((LoadBalancer.new_weighted [("X", 5), ("Z", 0)] 3).mark_unhealthy "X")
    (by decide) (by decide)

end LBProof
